import Mathlib

/-!
# Keyword matcher (`search/keyword_matcher.cpp`)

A shallow embedding of `search::KeywordMatcher`, of `KeywordMatcher::ScoreT` and
of `DebugPrint`, followed by theorems about the scoring routine, the score
comparator and the diagnostic rendering.

Modelling conventions.

* `StringT` is `strings::UniString`, a sequence of 32-bit code points; a token
  is a list of naturals.
* A C++ array argument (`StringT const * p`, `size_t count`) is a list holding
  the array's elements together with the count passed by the caller.  The C++
  caller must pass `count` at most the array's size; a read past the end of the
  list yields the empty token.
* `uint32_t` values are naturals reduced modulo `2 ^ 32` at every operation
  that may wrap.  Loop counters are `int` in the source and range over the
  sizes of the two flag vectors; they are naturals here.
* `MAX_TOKENS` is an enumerator of `keyword_matcher.hpp`; it is a parameter of
  the two operations that use it.
-/

namespace search

/-- A normalized token: `strings::UniString`, a sequence of code points. -/
abbrev StringT := List Nat

/-- Modelled from the spec: `StartsWith(beg, end, begPrefix, endPrefix)` is declared in
`indexer/search_string_utils.hpp`; it is the "starts-with" predicate of the
tokenizer: the second range is an initial segment of the first. -/
def StartsWith : StringT → StringT → Bool
  | _, [] => true
  | [], _ :: _ => false
  | c :: s, d :: p => c == d && StartsWith s p

/-- The value `KeywordMatcher::ScoreT` (fields in the order of the constructor's
initializer list).  The two numeric fields assigned from `uint32_t` locals hold
values below `2 ^ 32`; the count field holds at most `m_keywordsCount + 1`. -/
structure ScoreT where
  m_sumTokenMatchDistance : Nat
  m_nameTokensMatched : Nat
  m_numQueryTokensAndPrefixMatched : Nat
  m_bFullQueryMatched : Bool
  m_bPrefixMatched : Bool
  deriving DecidableEq, Repr

/-- The matcher's configuration: the borrowed keyword array, the number of
keywords in use, and the borrowed prefix (`none` for `NULL`). -/
structure KeywordMatcher where
  m_keywords : List StringT
  m_keywordsCount : Nat
  m_prefix : Option StringT
  deriving DecidableEq, Repr

/-- `KeywordMatcher::Clear`. -/
def KeywordMatcher.Clear (_m : KeywordMatcher) : KeywordMatcher :=
  { m_keywords := [], m_keywordsCount := 0, m_prefix := none }

/-- `KeywordMatcher::SetKeywords`; `MAX_TOKENS` is the enumerator of the header. -/
def KeywordMatcher.SetKeywords (MAX_TOKENS : Nat) (_m : KeywordMatcher)
    (keywords : List StringT) (count : Nat) (pfx : Option StringT) : KeywordMatcher :=
  { m_keywords := keywords
    m_keywordsCount := min MAX_TOKENS count
    m_prefix :=
      match pfx with
      | some p => if p.isEmpty then none else some p
      | none => none }

/-- Conversion of an `int` to `uint32_t`. -/
def toUInt32 (z : Int) : Nat := (z % 4294967296).toNat

/-- The call `abs(x)` on a `uint32_t` argument: the argument is read as a signed
32-bit integer, and the `int` result is converted back to `uint32_t` when it is
added to the accumulator. -/
def absInt32 (x : Nat) : Nat :=
  if x < 2147483648 then x else 4294967296 - x

/-- The statement `sumTokenMatchDistance += abs(tokenMatchDistance - prevTokenMatchDistance)`
on `uint32_t` operands. -/
def addDistance (sumTokenMatchDistance tokenMatchDistance prevTokenMatchDistance : Nat) : Nat :=
  (sumTokenMatchDistance +
    absInt32 ((tokenMatchDistance + 4294967296 - prevTokenMatchDistance) % 4294967296))
    % 4294967296

/-- The locals of `Score(StringT const *, size_t)` that the loops update. -/
structure MatchState where
  isQueryTokenMatched : List Bool
  isNameTokenMatched : List Bool
  sumTokenMatchDistance : Nat
  prevTokenMatchDistance : Nat
  bPrefixMatched : Bool
  deriving DecidableEq, Repr

/-- The body of the `if` inside the keyword loop, executed when keyword `i` is
matched to name token `j`. -/
def MatchState.onKeywordMatch (st : MatchState) (i j : Nat) : MatchState :=
  let tokenMatchDistance := toUInt32 ((i : Int) - (j : Int))
  { st with
    isQueryTokenMatched := st.isQueryTokenMatched.set i true
    isNameTokenMatched := st.isNameTokenMatched.set j true
    sumTokenMatchDistance :=
      addDistance st.sumTokenMatchDistance tokenMatchDistance st.prevTokenMatchDistance
    prevTokenMatchDistance := tokenMatchDistance }

/-- The inner keyword loop
`for (int j = 0; j < count && !isQueryTokenMatched[i]; ++j)` for a fixed `i`.
The first argument is `count - j`, the number of iterations left. -/
def keywordInner (m : KeywordMatcher) (tokens : List StringT) (i : Nat) :
    Nat → Nat → MatchState → MatchState
  | 0, _, st => st
  | left + 1, j, st =>
    if st.isQueryTokenMatched.getD i false then st
    else if !st.isNameTokenMatched.getD j false && (m.m_keywords.getD i [] == tokens.getD j []) then
      keywordInner m tokens i left (j + 1) (st.onKeywordMatch i j)
    else keywordInner m tokens i left (j + 1) st

/-- The outer keyword loop `for (int i = 0; i < m_keywordsCount; ++i)`.
The first argument is `m_keywordsCount - i`. -/
def keywordLoop (m : KeywordMatcher) (tokens : List StringT) (count : Nat) :
    Nat → Nat → MatchState → MatchState
  | 0, _, st => st
  | left + 1, i, st =>
    keywordLoop m tokens count left (i + 1) (keywordInner m tokens i count 0 st)

/-- The body of the `if` inside the prefix loop, executed when the prefix is
matched to name token `j`; `prevTokenMatchDistance` is left as it is. -/
def MatchState.onPrefixMatch (st : MatchState) (keywordsCount j : Nat) : MatchState :=
  let tokenMatchDistance := toUInt32 ((keywordsCount : Int) - (j : Int))
  { st with
    isNameTokenMatched := st.isNameTokenMatched.set j true
    bPrefixMatched := true
    sumTokenMatchDistance :=
      addDistance st.sumTokenMatchDistance tokenMatchDistance st.prevTokenMatchDistance }

/-- The loop of the `if (m_prefix)` block,
`for (int j = 0; j < count && !bPrefixMatched; ++j)`, for the prefix `p`.
The first argument is `count - j`. -/
def prefixLoop (m : KeywordMatcher) (p : StringT) (tokens : List StringT) :
    Nat → Nat → MatchState → MatchState
  | 0, _, st => st
  | left + 1, j, st =>
    if st.bPrefixMatched then st
    else if !st.isNameTokenMatched.getD j false && StartsWith (tokens.getD j []) p then
      prefixLoop m p tokens left (j + 1) (st.onPrefixMatch m.m_keywordsCount j)
    else prefixLoop m p tokens left (j + 1) st

/-- The `if (m_prefix) { ... }` block. -/
def prefixBlock (m : KeywordMatcher) (tokens : List StringT) (count : Nat)
    (st : MatchState) : MatchState :=
  match m.m_prefix with
  | none => st
  | some p => prefixLoop m p tokens count 0 { st with bPrefixMatched := false }

/-- The counting loop over `isQueryTokenMatched`; the first argument is the
part of the vector not yet visited, the second is `numQueryTokensMatched`, a
counter bounded by the size of the vector. -/
def countMatched : List Bool → Nat → Nat
  | [], numQueryTokensMatched => numQueryTokensMatched
  | b :: rest, numQueryTokensMatched =>
    countMatched rest (if b then numQueryTokensMatched + 1 else numQueryTokensMatched)

/-- The mask loop `for (uint32_t i = 0; i < min(size_t(32), isNameTokenMatched.size()); ++i)`
with body `if (!isNameTokenMatched[i]) mask &= ~(1 << (31 - i))`.
The first argument is the number of iterations left. -/
def maskLoop (isNameTokenMatched : List Bool) : Nat → Nat → Nat → Nat
  | 0, _, mask => mask
  | left + 1, i, mask =>
    maskLoop isNameTokenMatched left (i + 1)
      (if !isNameTokenMatched.getD i false then
        mask &&& (4294967295 ^^^ (1 <<< (31 - i)))
      else mask)

/-- `KeywordMatcher::Score(StringT const * tokens, size_t count)`. -/
def KeywordMatcher.Score (m : KeywordMatcher) (tokens : List StringT) (count : Nat) : ScoreT :=
  let st0 : MatchState :=
    { isQueryTokenMatched := List.replicate m.m_keywordsCount false
      isNameTokenMatched := List.replicate count false
      sumTokenMatchDistance := 0
      prevTokenMatchDistance := 0
      bPrefixMatched := true }
  let st1 := keywordLoop m tokens count m.m_keywordsCount 0 st0
  let st2 := prefixBlock m tokens count st1
  let numQueryTokensMatched := countMatched st2.isQueryTokenMatched 0
  { m_bFullQueryMatched :=
      st2.bPrefixMatched && (numQueryTokensMatched == st2.isQueryTokenMatched.length)
    m_bPrefixMatched := st2.bPrefixMatched
    m_numQueryTokensAndPrefixMatched :=
      numQueryTokensMatched + (if st2.bPrefixMatched then 1 else 0)
    m_nameTokensMatched :=
      maskLoop st2.isNameTokenMatched (min 32 st2.isNameTokenMatched.length) 0 4294967295
    m_sumTokenMatchDistance := st2.sumTokenMatchDistance }

/-- `KeywordMatcher::ScoreT::operator <`. -/
def ScoreT.lt (a s : ScoreT) : Bool :=
  if a.m_bFullQueryMatched != s.m_bFullQueryMatched then
    decide (a.m_bFullQueryMatched < s.m_bFullQueryMatched)
  else if a.m_numQueryTokensAndPrefixMatched != s.m_numQueryTokensAndPrefixMatched then
    decide (a.m_numQueryTokensAndPrefixMatched < s.m_numQueryTokensAndPrefixMatched)
  else if a.m_bPrefixMatched != s.m_bPrefixMatched then
    decide (a.m_bPrefixMatched < s.m_bPrefixMatched)
  else if a.m_nameTokensMatched != s.m_nameTokensMatched then
    decide (a.m_nameTokensMatched < s.m_nameTokensMatched)
  else if a.m_sumTokenMatchDistance != s.m_sumTokenMatchDistance then
    decide (a.m_sumTokenMatchDistance > s.m_sumTokenMatchDistance)
  else false

/-- `KeywordMatcher::Score(StringT const & name)`: the name is split by the
tokenizer (`SplitUniString` with `Delimiters`, here the parameter `split`), and
the token count is trimmed to `MAX_TOKENS` before the tokens are scored. -/
def KeywordMatcher.ScoreOfName (MAX_TOKENS : Nat) (split : StringT → List StringT)
    (m : KeywordMatcher) (name : StringT) : ScoreT :=
  let tokens := split name
  m.Score tokens (min MAX_TOKENS tokens.length)

/-- The order of `ScoreT::operator <` as the specification words it: the
lexicographic order on `(fullQueryMatched, queryTokensAndPrefixMatched,
prefixMatched, nameTokensMatchedMask, sumTokenMatchDistance)`, `false < true` on
the booleans, the last component reversed. -/
def ScoreT.lexLt (a b : ScoreT) : Prop :=
  a.m_bFullQueryMatched < b.m_bFullQueryMatched ∨
  (a.m_bFullQueryMatched = b.m_bFullQueryMatched ∧
    (a.m_numQueryTokensAndPrefixMatched < b.m_numQueryTokensAndPrefixMatched ∨
    (a.m_numQueryTokensAndPrefixMatched = b.m_numQueryTokensAndPrefixMatched ∧
      (a.m_bPrefixMatched < b.m_bPrefixMatched ∨
      (a.m_bPrefixMatched = b.m_bPrefixMatched ∧
        (a.m_nameTokensMatched < b.m_nameTokensMatched ∨
        (a.m_nameTokensMatched = b.m_nameTokensMatched ∧
          b.m_sumTokenMatchDistance < a.m_sumTokenMatchDistance)))))))

/-- The token "central" as code points. -/
def tokCentral : StringT := [99, 101, 110, 116, 114, 97, 108]

/-- The token "park" as code points. -/
def tokPark : StringT := [112, 97, 114, 107]

/-- The token "cent" as code points. -/
def tokCent : StringT := [99, 101, 110, 116]

/-- A matcher as left by the constructor, which calls `Clear`. -/
def KeywordMatcher.init : KeywordMatcher :=
  KeywordMatcher.Clear { m_keywords := [], m_keywordsCount := 0, m_prefix := none }

/-! ### Auxiliary functions used to state the loop invariants -/

/-- The first index `x` with `j ≤ x < j + left` whose flag is clear and whose
token satisfies `pred`, if there is one. -/
def firstHit (pred : StringT → Bool) (tokens : List StringT) (flags : List Bool) :
    Nat → Nat → Option Nat
  | 0, _ => none
  | left + 1, j =>
    if !flags.getD j false && pred (tokens.getD j []) then some j
    else firstHit pred tokens flags left (j + 1)

/-- The name tokens left over once every keyword in use has removed its first
remaining occurrence. -/
def unmatchedTokens (m : KeywordMatcher) (tokens : List StringT) (count : Nat) : List StringT :=
  (tokens.take count).diff (m.m_keywords.take m.m_keywordsCount)

/-- The name tokens whose flag is clear, in order of position. -/
def freeTokens : List StringT → List Bool → List StringT
  | t :: ts, false :: fs => t :: freeTokens ts fs
  | _ :: ts, true :: fs => freeTokens ts fs
  | _, _ => []


/-- The locals of `Score(StringT const *, size_t)` at the point where the two
keyword loops have run and the `if (m_prefix)` block has not yet. -/
def stateAfterKeywords (m : KeywordMatcher) (tokens : List StringT) (count : Nat) : MatchState :=
  keywordLoop m tokens count m.m_keywordsCount 0
    { isQueryTokenMatched := List.replicate m.m_keywordsCount false
      isNameTokenMatched := List.replicate count false
      sumTokenMatchDistance := 0
      prevTokenMatchDistance := 0
      bPrefixMatched := true }

/-- The locals of `Score(StringT const *, size_t)` after the `if (m_prefix)` block. -/
def stateAfterPrefix (m : KeywordMatcher) (tokens : List StringT) (count : Nat) : MatchState :=
  prefixBlock m tokens count (stateAfterKeywords m tokens count)

/-- The number of zero bits among the 32 bits of a mask. -/
def zeroBits (mask : Nat) : Nat :=
  ((List.range 32).filter (fun b => !mask.testBit b)).length

/-! ### The distance as the specification words it -/

/-- The keyword matches `(i, j)` in increasing keyword index, for the keyword
indices `i, ..., i + left - 1`: `j` is the first name-token position below
`count` that equals keyword `i` and is not consumed by an earlier keyword. -/
def matchPairs (m : KeywordMatcher) (tokens : List StringT) (count : Nat) :
    Nat → Nat → List Bool → List (Nat × Nat)
  | 0, _, _ => []
  | left + 1, i, consumed =>
    match firstHit (fun t => m.m_keywords.getD i [] == t) tokens consumed count 0 with
    | some j => (i, j) :: matchPairs m tokens count left (i + 1) (consumed.set j true)
    | none => matchPairs m tokens count left (i + 1) consumed

/-- The name-token positions consumed by a list of matches. -/
def markConsumed : List Bool → List (Nat × Nat) → List Bool
  | consumed, [] => consumed
  | consumed, (_, j) :: rest => markConsumed (consumed.set j true) rest

/-- The offsets `d = i - j` of a list of matches, over the integers. -/
def offsets (pairs : List (Nat × Nat)) : List Int :=
  pairs.map (fun ij => (ij.1 : Int) - (ij.2 : Int))

/-- The sum of `|d_k - d_(k-1)|` over a sequence of offsets, over the integers;
the first argument is the offset before the sequence. -/
def deltaSum : Int → List Int → Int
  | _, [] => 0
  | prev, d :: rest => |d - prev| + deltaSum d rest

/-- The last offset of a sequence; the first argument is the offset before the
sequence. -/
def lastOffset : Int → List Int → Int
  | prev, [] => prev
  | _, d :: rest => lastOffset d rest

/-- All keyword matches of a scoring call. -/
def keywordMatches (m : KeywordMatcher) (tokens : List StringT) (count : Nat) :
    List (Nat × Nat) :=
  matchPairs m tokens count m.m_keywordsCount 0 (List.replicate count false)

/-- The position `j_p` of the prefix match, if a prefix is configured and some
name token not consumed by a keyword starts with it: the first such position. -/
def prefixMatch (m : KeywordMatcher) (tokens : List StringT) (count : Nat) : Option Nat :=
  match m.m_prefix with
  | none => none
  | some p =>
    firstHit (fun t => StartsWith t p) tokens
      (markConsumed (List.replicate count false) (keywordMatches m tokens count)) count 0

/-- The offsets of all matches of a scoring call in the order they are made: the
keyword matches, then the prefix match with the keyword index `m_keywordsCount`. -/
def matchOffsets (m : KeywordMatcher) (tokens : List StringT) (count : Nat) : List Int :=
  offsets (keywordMatches m tokens count) ++
    (match prefixMatch m tokens count with
      | none => []
      | some jp => [(m.m_keywordsCount : Int) - (jp : Int)])

/-- The distance as the specification states it: the sum of `|d_k - d_(k-1)|` over
the keyword matches, `d_0 = 0`, plus the term `|(Q - j_p) - d_m|` when the prefix
is matched at `j_p`. -/
def specDistance (m : KeywordMatcher) (tokens : List StringT) (count : Nat) : Int :=
  deltaSum 0 (offsets (keywordMatches m tokens count)) +
    (match prefixMatch m tokens count with
      | none => 0
      | some jp =>
        |((m.m_keywordsCount : Int) - (jp : Int)) -
          lastOffset 0 (offsets (keywordMatches m tokens count))|)

/-- The two `uint32_t` statements of a match,
`sumTokenMatchDistance += abs(tokenMatchDistance - prevTokenMatchDistance)` and
`prevTokenMatchDistance = tokenMatchDistance`, run over a sequence of offsets;
the arguments are `sumTokenMatchDistance`, `prevTokenMatchDistance` and the
offsets still to come. -/
def uint32Run : Nat → Nat → List Int → Nat
  | sumTokenMatchDistance, _, [] => sumTokenMatchDistance
  | sumTokenMatchDistance, prevTokenMatchDistance, d :: rest =>
    uint32Run (addDistance sumTokenMatchDistance (toUInt32 d) prevTokenMatchDistance)
      (toUInt32 d) rest

/-- The value of `prevTokenMatchDistance` after the same run. -/
def uint32Prev : Nat → List Int → Nat
  | prevTokenMatchDistance, [] => prevTokenMatchDistance
  | _, d :: rest => uint32Prev (toUInt32 d) rest

/-! ### The diagnostic rendering -/

theorem keywordInner_done (m : KeywordMatcher) (tokens : List StringT) (i left j : Nat)
    (st : MatchState) (h : st.isQueryTokenMatched.getD i false = true) :
    keywordInner m tokens i left j st = st := by
  cases left with
  | zero => rfl
  | succ n => simp only [keywordInner, h, if_true]

theorem getD_set_self (l : List Bool) (i : Nat) (h : i < l.length) :
    (l.set i true).getD i false = true := by
  simp [List.getD_eq_getElem?_getD, h]

theorem keywordInner_eq (m : KeywordMatcher) (tokens : List StringT) (i : Nat) :
    ∀ (left j : Nat) (st : MatchState), st.isQueryTokenMatched.getD i false = false →
      i < st.isQueryTokenMatched.length →
      keywordInner m tokens i left j st =
        match firstHit (fun t => m.m_keywords.getD i [] == t) tokens st.isNameTokenMatched left j with
        | none => st
        | some j0 => st.onKeywordMatch i j0 := by
  intro left
  induction left with
  | zero => intro j st _ _; simp [keywordInner, firstHit]
  | succ n ih =>
    intro j st h hi
    by_cases hc : (!st.isNameTokenMatched.getD j false &&
        (m.m_keywords.getD i [] == tokens.getD j [])) = true
    · have hd : (st.onKeywordMatch i j).isQueryTokenMatched.getD i false = true := by
        simpa [MatchState.onKeywordMatch] using getD_set_self _ _ hi
      simp only [keywordInner, firstHit, h, hc, if_true]
      simp [keywordInner_done _ _ _ _ _ _ hd]
    · simp only [keywordInner, firstHit, h, hc]
      simpa using ih (j + 1) st h hi

theorem firstHit_some (pred : StringT → Bool) (tokens : List StringT) (flags : List Bool) :
    ∀ (left j j0 : Nat), firstHit pred tokens flags left j = some j0 →
      j ≤ j0 ∧ j0 < j + left ∧ flags.getD j0 false = false ∧ pred (tokens.getD j0 []) = true ∧
        ∀ x, j ≤ x → x < j0 → ¬(flags.getD x false = false ∧ pred (tokens.getD x []) = true) := by
  intro left
  induction left with
  | zero => intro j j0 h; simp [firstHit] at h
  | succ n ih =>
    intro j j0 h
    by_cases hc : (!flags.getD j false && pred (tokens.getD j [])) = true
    · simp only [firstHit, hc, if_true, Option.some.injEq] at h
      subst h
      simp only [Bool.and_eq_true, Bool.not_eq_true'] at hc
      exact ⟨le_refl _, by omega, hc.1, hc.2, fun x h1 h2 => by omega⟩
    · simp only [firstHit, hc] at h
      obtain ⟨h1, h2, h3, h4, h5⟩ := ih (j + 1) j0 h
      refine ⟨by omega, by omega, h3, h4, ?_⟩
      intro x hx1 hx2
      by_cases hxj : x = j
      · subst hxj
        simpa only [Bool.and_eq_true, Bool.not_eq_true'] using hc
      · exact h5 x (by omega) hx2

theorem firstHit_none (pred : StringT → Bool) (tokens : List StringT) (flags : List Bool) :
    ∀ (left j : Nat), firstHit pred tokens flags left j = none →
      ∀ x, j ≤ x → x < j + left →
        ¬(flags.getD x false = false ∧ pred (tokens.getD x []) = true) := by
  intro left
  induction left with
  | zero => intro j _ x h1 h2; omega
  | succ n ih =>
    intro j h x hx1 hx2
    by_cases hc : (!flags.getD j false && pred (tokens.getD j [])) = true
    · simp only [firstHit, hc, if_true] at h
      exact absurd h (by simp)
    · simp only [firstHit, hc] at h
      by_cases hxj : x = j
      · subst hxj
        simpa only [Bool.and_eq_true, Bool.not_eq_true'] using hc
      · exact ih (j + 1) h x (by omega) (by omega)

/-- The search returns `j0` as soon as `j0` is a hit and nothing before it is. -/
theorem firstHit_eq_some (pred : StringT → Bool) (tokens : List StringT) (flags : List Bool)
    (left j j0 : Nat) (h1 : j ≤ j0) (h2 : j0 < j + left)
    (h3 : flags.getD j0 false = false) (h4 : pred (tokens.getD j0 []) = true)
    (h5 : ∀ x, j ≤ x → x < j0 → ¬(flags.getD x false = false ∧ pred (tokens.getD x []) = true)) :
    firstHit pred tokens flags left j = some j0 := by
  cases hr : firstHit pred tokens flags left j with
  | none => exact absurd ⟨h3, h4⟩ (firstHit_none pred tokens flags left j hr j0 h1 h2)
  | some y =>
    obtain ⟨a1, a2, a3, a4, a5⟩ := firstHit_some pred tokens flags left j y hr
    have hle : y ≤ j0 := by
      by_contra hlt
      exact a5 j0 h1 (by omega) ⟨h3, h4⟩
    have hge : j0 ≤ y := by
      by_contra hlt
      exact h5 y a1 (by omega) ⟨a3, a4⟩
    have : y = j0 := by omega
    rw [this]

theorem prefixLoop_done (m : KeywordMatcher) (p : StringT) (tokens : List StringT) (left j : Nat)
    (st : MatchState) (h : st.bPrefixMatched = true) :
    prefixLoop m p tokens left j st = st := by
  cases left with
  | zero => rfl
  | succ n => simp only [prefixLoop, h, if_true]

theorem prefixLoop_eq (m : KeywordMatcher) (p : StringT) (tokens : List StringT) :
    ∀ (left j : Nat) (st : MatchState), st.bPrefixMatched = false →
      prefixLoop m p tokens left j st =
        match firstHit (fun t => StartsWith t p) tokens st.isNameTokenMatched left j with
        | none => st
        | some j0 => st.onPrefixMatch m.m_keywordsCount j0 := by
  intro left
  induction left with
  | zero => intro j st _; simp [prefixLoop, firstHit]
  | succ n ih =>
    intro j st h
    by_cases hc : (!st.isNameTokenMatched.getD j false && StartsWith (tokens.getD j []) p) = true
    · have hd : (st.onPrefixMatch m.m_keywordsCount j).bPrefixMatched = true := rfl
      simp only [prefixLoop, firstHit, h, hc, if_true]
      simp [prefixLoop_done _ _ _ _ _ _ hd]
    · simp only [prefixLoop, firstHit, h, hc]
      simpa using ih (j + 1) st h

/-! ### Free tokens -/

theorem mem_freeTokens (t : StringT) :
    ∀ (tokens : List StringT) (flags : List Bool),
      t ∈ freeTokens tokens flags ↔
        ∃ x, x < flags.length ∧ x < tokens.length ∧ flags.getD x false = false ∧
          tokens.getD x [] = t := by
  intro tokens
  induction tokens with
  | nil => intro flags; cases flags <;> simp [freeTokens]
  | cons a ts ih =>
    intro flags
    cases flags with
    | nil => simp [freeTokens]
    | cons b fs =>
      cases b with
      | false =>
        simp only [freeTokens, List.mem_cons, ih fs]
        constructor
        · rintro (h | ⟨x, h1, h2, h3, h4⟩)
          · exact ⟨0, by simp, by simp, by simp, by simp [h]⟩
          · exact ⟨x + 1, by simpa using h1, by simpa using h2, by simpa using h3,
              by simpa using h4⟩
        · rintro ⟨x, h1, h2, h3, h4⟩
          cases x with
          | zero => left; simpa using h4.symm
          | succ y =>
            right
            exact ⟨y, by simpa using h1, by simpa using h2, by simpa using h3, by simpa using h4⟩
      | true =>
        simp only [freeTokens, ih fs]
        constructor
        · rintro ⟨x, h1, h2, h3, h4⟩
          exact ⟨x + 1, by simpa using h1, by simpa using h2, by simpa using h3,
            by simpa using h4⟩
        · rintro ⟨x, h1, h2, h3, h4⟩
          cases x with
          | zero => simp at h3
          | succ y =>
            exact ⟨y, by simpa using h1, by simpa using h2, by simpa using h3, by simpa using h4⟩

theorem freeTokens_set (tokens : List StringT) :
    ∀ (flags : List Bool) (j0 : Nat), j0 < flags.length → j0 < tokens.length →
      flags.getD j0 false = false →
      (∀ x, x < j0 → ¬(flags.getD x false = false ∧ tokens.getD x [] = tokens.getD j0 [])) →
      freeTokens tokens (flags.set j0 true) = (freeTokens tokens flags).erase (tokens.getD j0 []) := by
  induction tokens with
  | nil => intro flags j0 _ h; simp at h
  | cons a ts ih =>
    intro flags j0 h1 h2 h3 h4
    cases flags with
    | nil => simp at h1
    | cons b fs =>
      cases j0 with
      | zero =>
        have hb : b = false := by simpa using h3
        subst hb
        simp [freeTokens]
      | succ y =>
        have h1y : y < fs.length := by simpa using h1
        have h2y : y < ts.length := by simpa using h2
        have h3y : fs.getD y false = false := by simpa using h3
        have h4y : ∀ x, x < y → ¬(fs.getD x false = false ∧ ts.getD x [] = ts.getD y []) := by
          intro x hx
          have := h4 (x + 1) (by omega)
          simpa using this
        have hrec := ih fs y h1y h2y h3y h4y
        cases b with
        | true =>
          simpa [freeTokens] using hrec
        | false =>
          have hne : ¬ (a = ts.getD y []) := by
            have := h4 0 (by omega)
            simpa using this
          have hbeq : ¬ ((a == ts.getD y []) = true) := by simpa using hne
          simp only [List.set_cons_succ, freeTokens, List.getD_cons_succ]
          rw [List.erase_cons_tail hbeq, hrec]

theorem freeTokens_replicate_false :
    ∀ (tokens : List StringT) (n : Nat), freeTokens tokens (List.replicate n false) = tokens.take n := by
  intro tokens
  induction tokens with
  | nil => intro n; cases n <;> simp [freeTokens, List.replicate]
  | cons a ts ih =>
    intro n
    cases n with
    | zero => simp [freeTokens]
    | succ k => simp [freeTokens, List.replicate, ih k]

/-! ### The keyword loops and the free tokens -/

theorem count_set_true :
    ∀ (l : List Bool) (i : Nat), l.getD i false = false → i < l.length →
      (l.set i true).count true = l.count true + 1 := by
  intro l
  induction l with
  | nil => intro i _ h; simp at h
  | cons b bs ih =>
    intro i h1 h2
    cases i with
    | zero =>
      have hb : b = false := by simpa using h1
      subst hb
      simp
    | succ y =>
      have := ih y (by simpa using h1) (by simpa using h2)
      cases b <;> simp [List.count_cons, this]

theorem getD_set_other (l : List Bool) (i x : Nat) (h : x ≠ i) :
    (l.set i true).getD x false = l.getD x false := by
  simp [List.getD_eq_getElem?_getD, List.getElem?_set_ne (Ne.symm h)]

/-- What one run of the inner keyword loop does to the flags. -/
theorem keywordInner_spec (m : KeywordMatcher) (tokens : List StringT) (count i : Nat)
    (st : MatchState) (hq : st.isQueryTokenMatched.getD i false = false)
    (hi : i < st.isQueryTokenMatched.length) (hn : st.isNameTokenMatched.length = count)
    (hc : count ≤ tokens.length) :
    (keywordInner m tokens i count 0 st).isQueryTokenMatched.length =
        st.isQueryTokenMatched.length ∧
      (keywordInner m tokens i count 0 st).isNameTokenMatched.length = count ∧
      (∀ x, x ≠ i → (keywordInner m tokens i count 0 st).isQueryTokenMatched.getD x false =
        st.isQueryTokenMatched.getD x false) ∧
      freeTokens tokens (keywordInner m tokens i count 0 st).isNameTokenMatched =
        (freeTokens tokens st.isNameTokenMatched).erase (m.m_keywords.getD i []) ∧
      (keywordInner m tokens i count 0 st).isQueryTokenMatched.count true +
          (freeTokens tokens (keywordInner m tokens i count 0 st).isNameTokenMatched).length =
        st.isQueryTokenMatched.count true + (freeTokens tokens st.isNameTokenMatched).length ∧
      (keywordInner m tokens i count 0 st).bPrefixMatched = st.bPrefixMatched := by
  rw [keywordInner_eq m tokens i count 0 st hq hi]
  cases hr : firstHit (fun t => m.m_keywords.getD i [] == t) tokens st.isNameTokenMatched count 0 with
  | none =>
    have hnot : m.m_keywords.getD i [] ∉ freeTokens tokens st.isNameTokenMatched := by
      intro hmem
      obtain ⟨x, h1, _, h3, h4⟩ := (mem_freeTokens _ _ _).1 hmem
      exact firstHit_none _ tokens _ count 0 hr x (Nat.zero_le _) (by omega)
        ⟨h3, beq_iff_eq.2 h4.symm⟩
    exact ⟨rfl, hn, fun _ _ => rfl, (List.erase_of_not_mem hnot).symm, rfl, rfl⟩
  | some j0 =>
    obtain ⟨_, a2, a3, a4, a5⟩ := firstHit_some _ tokens _ count 0 j0 hr
    have hk : tokens.getD j0 [] = m.m_keywords.getD i [] := by
      exact (beq_iff_eq.1 a4).symm
    have hset : freeTokens tokens (st.isNameTokenMatched.set j0 true) =
        (freeTokens tokens st.isNameTokenMatched).erase (m.m_keywords.getD i []) := by
      rw [← hk]
      apply freeTokens_set tokens _ j0 (by omega) (by omega) a3
      intro x hx hcon
      exact a5 x (Nat.zero_le _) hx ⟨hcon.1, beq_iff_eq.2 (by rw [hcon.2, hk])⟩
    have hmem : m.m_keywords.getD i [] ∈ freeTokens tokens st.isNameTokenMatched :=
      (mem_freeTokens _ _ _).2 ⟨j0, by omega, by omega, a3, hk⟩
    have hpos : 0 < (freeTokens tokens st.isNameTokenMatched).length :=
      List.length_pos_of_mem hmem
    refine ⟨?_, ?_, fun x hx => getD_set_other _ _ _ hx, hset, ?_, rfl⟩
    · simp [MatchState.onKeywordMatch]
    · simp [MatchState.onKeywordMatch, hn]
    · show (st.isQueryTokenMatched.set i true).count true +
          (freeTokens tokens (st.isNameTokenMatched.set j0 true)).length = _
      rw [hset, count_set_true _ _ hq hi, List.length_erase_of_mem hmem]
      omega

/-- The keywords read by iterations `i, ..., i + left - 1` of the outer loop. -/
theorem keywordLoop_spec (m : KeywordMatcher) (tokens : List StringT) (count : Nat)
    (hc : count ≤ tokens.length) :
    ∀ (left i : Nat) (st : MatchState), i + left = st.isQueryTokenMatched.length →
      (∀ x, i ≤ x → st.isQueryTokenMatched.getD x false = false) →
      st.isNameTokenMatched.length = count →
      (keywordLoop m tokens count left i st).isQueryTokenMatched.length =
          st.isQueryTokenMatched.length ∧
        (keywordLoop m tokens count left i st).isNameTokenMatched.length = count ∧
        freeTokens tokens (keywordLoop m tokens count left i st).isNameTokenMatched =
          (freeTokens tokens st.isNameTokenMatched).diff
            ((List.range' i left).map (fun x => m.m_keywords.getD x [])) ∧
        (keywordLoop m tokens count left i st).isQueryTokenMatched.count true +
            (freeTokens tokens (keywordLoop m tokens count left i st).isNameTokenMatched).length =
          st.isQueryTokenMatched.count true + (freeTokens tokens st.isNameTokenMatched).length ∧
        (keywordLoop m tokens count left i st).bPrefixMatched = st.bPrefixMatched := by
  intro left
  induction left with
  | zero => intro i st _ _ hn; simp [keywordLoop, hn]
  | succ n ih =>
    intro i st hlen hfree hn
    obtain ⟨b1, b2, b3, b4, b5, b6⟩ :=
      keywordInner_spec m tokens count i st (hfree i (le_refl _)) (by omega) hn hc
    have hfree2 : ∀ x, i + 1 ≤ x →
        (keywordInner m tokens i count 0 st).isQueryTokenMatched.getD x false = false := by
      intro x hx
      rw [b3 x (by omega)]
      exact hfree x (by omega)
    obtain ⟨c1, c2, c3, c4, c5⟩ :=
      ih (i + 1) (keywordInner m tokens i count 0 st) (by omega) hfree2 b2
    simp only [keywordLoop]
    refine ⟨by omega, c2, ?_, by omega, by rw [c5, b6]⟩
    rw [c3, b4, List.range'_succ, List.map_cons, List.diff_cons]

theorem map_getD_range (l : List StringT) (n : Nat) (h : n ≤ l.length) :
    (List.range' 0 n).map (fun x => l.getD x []) = l.take n := by
  apply List.ext_getElem
  · simp [h]
  · intro x h1 h2
    simp at h1
    simp [List.getD_eq_getElem?_getD, List.getElem?_eq_getElem (show x < l.length by omega)]

/-! ### The prefix block, the counting loop and the score in closed form -/

theorem countMatched_eq : ∀ (l : List Bool) (n : Nat), countMatched l n = n + l.count true := by
  intro l
  induction l with
  | nil => intro n; simp [countMatched]
  | cons b bs ih =>
    intro n
    cases b
    · simp [countMatched, ih, List.count_cons]
    · simp [countMatched, ih, List.count_cons]
      omega

theorem prefixBlock_spec (m : KeywordMatcher) (tokens : List StringT) (count : Nat)
    (st : MatchState) (hn : st.isNameTokenMatched.length = count) (hc : count ≤ tokens.length) :
    (prefixBlock m tokens count st).isQueryTokenMatched = st.isQueryTokenMatched ∧
      (prefixBlock m tokens count st).bPrefixMatched =
        (match m.m_prefix with
          | none => st.bPrefixMatched
          | some p => (freeTokens tokens st.isNameTokenMatched).any (fun t => StartsWith t p)) := by
  unfold prefixBlock
  cases hp : m.m_prefix with
  | none => exact ⟨rfl, rfl⟩
  | some p =>
    simp only
    rw [prefixLoop_eq m p tokens count 0 _ rfl]
    cases hr : firstHit (fun t => StartsWith t p) tokens st.isNameTokenMatched count 0 with
    | none =>
      refine ⟨rfl, ?_⟩
      symm
      show (freeTokens tokens st.isNameTokenMatched).any (fun t => StartsWith t p) = false
      rw [List.any_eq_false]
      intro t ht hst
      obtain ⟨x, h1, _, h3, h4⟩ := (mem_freeTokens _ _ _).1 ht
      exact firstHit_none _ tokens _ count 0 hr x (Nat.zero_le _) (by omega)
        ⟨h3, by rw [h4]; exact hst⟩
    | some j0 =>
      obtain ⟨_, a2, a3, a4, _⟩ := firstHit_some _ tokens _ count 0 j0 hr
      refine ⟨rfl, ?_⟩
      symm
      show (freeTokens tokens st.isNameTokenMatched).any (fun t => StartsWith t p) = true
      rw [List.any_eq_true]
      exact ⟨tokens.getD j0 [], (mem_freeTokens _ _ _).2 ⟨j0, by omega, by omega, a3, rfl⟩, a4⟩

/-- The three match-success fields of a score, in closed form. -/
theorem Score_fields (m : KeywordMatcher) (tokens : List StringT) (count : Nat)
    (hk : m.m_keywordsCount ≤ m.m_keywords.length) (hc : count ≤ tokens.length) :
    (m.Score tokens count).m_bPrefixMatched =
        (match m.m_prefix with
          | none => true
          | some p => (unmatchedTokens m tokens count).any (fun t => StartsWith t p)) ∧
      (m.Score tokens count).m_numQueryTokensAndPrefixMatched =
        (count - (unmatchedTokens m tokens count).length) +
          (if (m.Score tokens count).m_bPrefixMatched then 1 else 0) ∧
      (m.Score tokens count).m_bFullQueryMatched =
        ((m.Score tokens count).m_bPrefixMatched &&
          (count - (unmatchedTokens m tokens count).length == m.m_keywordsCount)) := by
  have hinit : ∀ x, 0 ≤ x → (List.replicate m.m_keywordsCount false).getD x false = false := by
    intro x _
    by_cases hx : x < m.m_keywordsCount <;> simp [List.getD_eq_getElem?_getD, hx, List.getElem?_replicate]
  obtain ⟨c1, c2, c3, c4, c5⟩ := keywordLoop_spec m tokens count hc m.m_keywordsCount 0
    { isQueryTokenMatched := List.replicate m.m_keywordsCount false
      isNameTokenMatched := List.replicate count false
      sumTokenMatchDistance := 0
      prevTokenMatchDistance := 0
      bPrefixMatched := true } (by simp) hinit (by simp)
  obtain ⟨d1, d2⟩ := prefixBlock_spec m tokens count _ c2 hc
  simp only [freeTokens_replicate_false, map_getD_range _ _ hk] at c3 c4
  have hfree : freeTokens tokens (keywordLoop m tokens count m.m_keywordsCount 0
      { isQueryTokenMatched := List.replicate m.m_keywordsCount false
        isNameTokenMatched := List.replicate count false
        sumTokenMatchDistance := 0
        prevTokenMatchDistance := 0
        bPrefixMatched := true }).isNameTokenMatched = unmatchedTokens m tokens count := c3
  rw [hfree] at c4 d2
  have hcount : countMatched (keywordLoop m tokens count m.m_keywordsCount 0
      { isQueryTokenMatched := List.replicate m.m_keywordsCount false
        isNameTokenMatched := List.replicate count false
        sumTokenMatchDistance := 0
        prevTokenMatchDistance := 0
        bPrefixMatched := true }).isQueryTokenMatched 0 =
      count - (unmatchedTokens m tokens count).length := by
    rw [countMatched_eq]
    simp [List.count_replicate, hc] at c4
    omega
  have hpm : (m.Score tokens count).m_bPrefixMatched =
      (match m.m_prefix with
        | none => true
        | some p => (unmatchedTokens m tokens count).any (fun t => StartsWith t p)) := by
    show (prefixBlock m tokens count _).bPrefixMatched = _
    rw [d2, c5]
  refine ⟨hpm, ?_, ?_⟩
  · show countMatched (prefixBlock m tokens count _).isQueryTokenMatched 0 + _ = _
    rw [d1, hcount]
    rfl
  · show ((prefixBlock m tokens count _).bPrefixMatched &&
        (countMatched (prefixBlock m tokens count _).isQueryTokenMatched 0 ==
          (prefixBlock m tokens count _).isQueryTokenMatched.length)) = _
    rw [d1, hcount, c1]
    simp only [List.length_replicate]
    rfl

/-! ### The comparator -/

theorem lt_iff_lexLt (a b : ScoreT) : a.lt b = true ↔ a.lexLt b := by
  obtain ⟨s1, n1, q1, f1, p1⟩ := a
  obtain ⟨s2, n2, q2, f2, p2⟩ := b
  unfold ScoreT.lt ScoreT.lexLt
  cases f1 <;> cases f2 <;> cases p1 <;> cases p2 <;> simp [Bool.lt_iff] <;>
    (try split_ifs) <;> omega

theorem lt_self (a : ScoreT) : a.lt a = false := by
  simp [ScoreT.lt]

theorem not_lexLt_both (a b : ScoreT) (h1 : ¬ a.lexLt b) (h2 : ¬ b.lexLt a) : a = b := by
  obtain ⟨s1, n1, q1, f1, p1⟩ := a
  obtain ⟨s2, n2, q2, f2, p2⟩ := b
  unfold ScoreT.lexLt at h1 h2
  cases f1 <;> cases f2 <;> cases p1 <;> cases p2 <;> simp [Bool.lt_iff] at h1 h2 ⊢ <;> omega

theorem lexLt_trans (a b c : ScoreT) (h1 : a.lexLt b) (h2 : b.lexLt c) : a.lexLt c := by
  obtain ⟨s1, n1, q1, f1, p1⟩ := a
  obtain ⟨s2, n2, q2, f2, p2⟩ := b
  obtain ⟨s3, n3, q3, f3, p3⟩ := c
  unfold ScoreT.lexLt at h1 h2 ⊢
  cases f1 <;> cases f2 <;> cases f3 <;> cases p1 <;> cases p2 <;> cases p3 <;>
    simp [Bool.lt_iff] at h1 h2 ⊢ <;> omega

theorem lexLt_asymm (a b : ScoreT) (h1 : a.lexLt b) : ¬ b.lexLt a := by
  obtain ⟨s1, n1, q1, f1, p1⟩ := a
  obtain ⟨s2, n2, q2, f2, p2⟩ := b
  unfold ScoreT.lexLt at h1 ⊢
  cases f1 <;> cases f2 <;> cases p1 <;> cases p2 <;> simp [Bool.lt_iff] at h1 ⊢ <;> omega

theorem incomparable_eq (a b : ScoreT) (h1 : a.lt b = false) (h2 : b.lt a = false) : a = b := by
  apply not_lexLt_both
  · intro h
    rw [(lt_iff_lexLt a b).2 h] at h1
    cases h1
  · intro h
    rw [(lt_iff_lexLt b a).2 h] at h2
    cases h2

/-- C6: `ScoreT::operator <` is a strict weak ordering: it is irreflexive,
asymmetric and transitive, and incomparability (neither `a < b` nor `b < a`) is
transitive. -/
theorem ScoreT_lt_strict_weak_ordering :
    (∀ a : ScoreT, a.lt a = false) ∧
    (∀ a b : ScoreT, a.lt b = true → b.lt a = false) ∧
    (∀ a b c : ScoreT, a.lt b = true → b.lt c = true → a.lt c = true) ∧
    (∀ a b c : ScoreT, a.lt b = false → b.lt a = false → b.lt c = false → c.lt b = false →
      a.lt c = false ∧ c.lt a = false) := by
  refine ⟨lt_self, ?_, ?_, ?_⟩
  · intro a b h
    have := lexLt_asymm a b ((lt_iff_lexLt a b).1 h)
    rw [← lt_iff_lexLt] at this
    simpa using this
  · intro a b c h1 h2
    exact (lt_iff_lexLt a c).2 (lexLt_trans a b c ((lt_iff_lexLt a b).1 h1) ((lt_iff_lexLt b c).1 h2))
  · intro a b c h1 h2 h3 h4
    have hab := incomparable_eq a b h1 h2
    have hbc := incomparable_eq b c h3 h4
    subst hab
    subst hbc
    exact ⟨lt_self a, lt_self a⟩

/-- Three scores on which the comparator is exercised: C6 applied to
`a < b`, `b < c`. -/
theorem ScoreT_lt_strict_weak_ordering_witness :
    (ScoreT.mk 5 4294967295 1 false true).lt (ScoreT.mk 3 1610612735 2 true true) = true ∧
    (ScoreT.mk 3 1610612735 2 true true).lt (ScoreT.mk 0 4294967295 2 true true) = true ∧
    (ScoreT.mk 5 4294967295 1 false true).lt (ScoreT.mk 0 4294967295 2 true true) = true :=
  ⟨by decide, by decide,
    ScoreT_lt_strict_weak_ordering.2.2.1 (ScoreT.mk 5 4294967295 1 false true)
      (ScoreT.mk 3 1610612735 2 true true) (ScoreT.mk 0 4294967295 2 true true)
      (by decide) (by decide)⟩

/-- C7: `ScoreT::operator <` is the lexicographic order on
(fullQueryMatched, queryTokensAndPrefixMatched, prefixMatched, mask as unsigned,
sumTokenMatchDistance reversed): `a < b` holds iff at the first field where the
two differ the value of `a` is smaller (larger for the distance); and neither
`a < b` nor `b < a` holds iff all five fields are equal. -/
theorem ScoreT_lt_is_lexicographic (a b : ScoreT) :
    (a.lt b = true ↔ a.lexLt b) ∧
    ((a.lt b = false ∧ b.lt a = false) ↔
      (a.m_bFullQueryMatched = b.m_bFullQueryMatched ∧
        a.m_numQueryTokensAndPrefixMatched = b.m_numQueryTokensAndPrefixMatched ∧
        a.m_bPrefixMatched = b.m_bPrefixMatched ∧
        a.m_nameTokensMatched = b.m_nameTokensMatched ∧
        a.m_sumTokenMatchDistance = b.m_sumTokenMatchDistance)) := by
  refine ⟨lt_iff_lexLt a b, ?_, ?_⟩
  · rintro ⟨h1, h2⟩
    have := incomparable_eq a b h1 h2
    subst this
    exact ⟨rfl, rfl, rfl, rfl, rfl⟩
  · rintro ⟨h1, h2, h3, h4, h5⟩
    have : a = b := by
      cases a
      cases b
      simp_all
    subst this
    exact ⟨lt_self a, lt_self a⟩

/-! ### Scoring a name equal to the keywords -/

theorem toUInt32_sub_self (i : Nat) : toUInt32 ((i : Int) - (i : Int)) = 0 := by
  simp [toUInt32]

theorem addDistance_zero : addDistance 0 0 0 = 0 := by decide

theorem diff_self_eq_nil : ∀ l : List StringT, l.diff l = [] := by
  intro l
  induction l with
  | nil => rfl
  | cons a t ih => rw [List.diff_cons, List.erase_cons_head, ih]

/-- When the name tokens are the keywords themselves, keyword `i` takes token `i`
and the distance stays zero. -/
theorem keywordLoop_exact (m : KeywordMatcher) (count : Nat) :
    ∀ (left i : Nat) (st : MatchState), i + left = st.isQueryTokenMatched.length →
      st.isNameTokenMatched.length = count → i + left = count →
      (∀ x, i ≤ x → st.isQueryTokenMatched.getD x false = false) →
      (∀ x, st.isNameTokenMatched.getD x false = decide (x < i)) →
      st.sumTokenMatchDistance = 0 → st.prevTokenMatchDistance = 0 →
      (keywordLoop m m.m_keywords count left i st).sumTokenMatchDistance = 0 := by
  intro left
  induction left with
  | zero => intro i st _ _ _ _ _ hs _; simpa [keywordLoop] using hs
  | succ n ih =>
    intro i st hq hn hcnt hfree hflags hs hp
    have hhit : firstHit (fun t => m.m_keywords.getD i [] == t) m.m_keywords
        st.isNameTokenMatched count 0 = some i := by
      apply firstHit_eq_some _ _ _ _ _ _ (Nat.zero_le _) (by omega)
      · rw [hflags i]; simp
      · simp
      · intro x _ hx hcon
        rw [hflags x] at hcon
        simp [hx] at hcon
    have hstep : keywordInner m m.m_keywords i count 0 st = st.onKeywordMatch i i := by
      rw [keywordInner_eq m _ i count 0 st (hfree i (le_refl _)) (by omega), hhit]
    simp only [keywordLoop, hstep]
    apply ih (i + 1) (st.onKeywordMatch i i)
    · simp [MatchState.onKeywordMatch]; omega
    · simp [MatchState.onKeywordMatch, hn]
    · omega
    · intro x hx
      show (st.isQueryTokenMatched.set i true).getD x false = false
      rw [getD_set_other _ _ _ (by omega)]
      exact hfree x (by omega)
    · intro x
      show (st.isNameTokenMatched.set i true).getD x false = decide (x < i + 1)
      by_cases hxi : x = i
      · subst hxi
        rw [getD_set_self _ _ (by omega)]
        simp
      · rw [getD_set_other _ _ _ hxi, hflags x]
        simp only [decide_eq_decide]
        omega
    · show addDistance st.sumTokenMatchDistance (toUInt32 ((i : Int) - (i : Int)))
          st.prevTokenMatchDistance = 0
      rw [hs, hp, toUInt32_sub_self, addDistance_zero]
    · show toUInt32 ((i : Int) - (i : Int)) = 0
      exact toUInt32_sub_self i

theorem SetKeywords_none (MAX_TOKENS : Nat) (m0 : KeywordMatcher) (kw : List StringT)
    (count : Nat) :
    KeywordMatcher.SetKeywords MAX_TOKENS m0 kw count none =
      { m_keywords := kw, m_keywordsCount := min MAX_TOKENS count, m_prefix := none } := rfl

theorem Score_exact_fields (MAX_TOKENS : Nat) (m0 : KeywordMatcher) (kw : List StringT)
    (h : kw.length ≤ MAX_TOKENS) :
    ((KeywordMatcher.SetKeywords MAX_TOKENS m0 kw kw.length none).Score kw
        kw.length).m_bPrefixMatched = true ∧
      ((KeywordMatcher.SetKeywords MAX_TOKENS m0 kw kw.length none).Score kw
        kw.length).m_numQueryTokensAndPrefixMatched = kw.length + 1 ∧
      ((KeywordMatcher.SetKeywords MAX_TOKENS m0 kw kw.length none).Score kw
        kw.length).m_bFullQueryMatched = true := by
  rw [SetKeywords_none, Nat.min_eq_right h]
  obtain ⟨h1, h2, h3⟩ := Score_fields
    { m_keywords := kw, m_keywordsCount := kw.length, m_prefix := none } kw kw.length
    (le_refl _) (le_refl _)
  have hu : unmatchedTokens { m_keywords := kw, m_keywordsCount := kw.length, m_prefix := none }
      kw kw.length = [] := by
    simp [unmatchedTokens, diff_self_eq_nil]
  rw [hu] at h2 h3
  simp only at h1
  rw [h1] at h2 h3
  exact ⟨h1, by simpa using h2, by simpa using h3⟩

/-- C1: exact match.  For keywords `kw` of length at most `MAX_TOKENS`
(duplicates allowed) configured with no prefix, scoring the name-token sequence
`kw` gives `fullQueryMatched = true` and `sumTokenMatchDistance = 0`. -/
theorem Score_exact_match (MAX_TOKENS : Nat) (m0 : KeywordMatcher) (kw : List StringT)
    (h : kw.length ≤ MAX_TOKENS) :
    ((KeywordMatcher.SetKeywords MAX_TOKENS m0 kw kw.length none).Score kw
        kw.length).m_bFullQueryMatched = true ∧
      ((KeywordMatcher.SetKeywords MAX_TOKENS m0 kw kw.length none).Score kw
        kw.length).m_sumTokenMatchDistance = 0 := by
  refine ⟨(Score_exact_fields MAX_TOKENS m0 kw h).2.2, ?_⟩
  rw [SetKeywords_none, Nat.min_eq_right h]
  show (prefixBlock _ kw kw.length (keywordLoop
    { m_keywords := kw, m_keywordsCount := kw.length, m_prefix := none } kw kw.length kw.length 0
    _)).sumTokenMatchDistance = 0
  simp only [prefixBlock]
  apply keywordLoop_exact { m_keywords := kw, m_keywordsCount := kw.length, m_prefix := none }
    kw.length kw.length 0
  · simp
  · simp
  · simp
  · intro x _
    by_cases hx : x < kw.length <;>
      simp [List.getD_eq_getElem?_getD, hx, List.getElem?_replicate]
  · intro x
    by_cases hx : x < kw.length <;>
      simp [List.getD_eq_getElem?_getD, hx, List.getElem?_replicate]
  · rfl
  · rfl

/-- C1 at keywords `["central", "park"]` with `MAX_TOKENS = 32`. -/
theorem Score_exact_match_witness :
    [tokCentral, tokPark].length ≤ 32 ∧
    ((KeywordMatcher.SetKeywords 32 KeywordMatcher.init [tokCentral, tokPark]
        [tokCentral, tokPark].length none).Score [tokCentral, tokPark]
        [tokCentral, tokPark].length).m_bFullQueryMatched = true ∧
    ((KeywordMatcher.SetKeywords 32 KeywordMatcher.init [tokCentral, tokPark]
        [tokCentral, tokPark].length none).Score [tokCentral, tokPark]
        [tokCentral, tokPark].length).m_sumTokenMatchDistance = 0 :=
  ⟨by decide, Score_exact_match 32 KeywordMatcher.init [tokCentral, tokPark] (by decide)⟩

/-- C2 as stated fails: with keywords `["central", "park"]`, no prefix and
`MAX_TOKENS = 32`, the name tokens `["central", "park"]` give
`queryTokensAndPrefixMatched = 3`, not `2`. -/
theorem Score_exact_count_is_not_keyword_count :
    ((KeywordMatcher.SetKeywords 32 KeywordMatcher.init [tokCentral, tokPark] 2 none).Score
        [tokCentral, tokPark] 2).m_numQueryTokensAndPrefixMatched = 3 ∧
    ((KeywordMatcher.SetKeywords 32 KeywordMatcher.init [tokCentral, tokPark] 2 none).Score
        [tokCentral, tokPark] 2).m_numQueryTokensAndPrefixMatched ≠ 2 := by
  decide

/-- C2 amended: with no prefix configured, when the name tokens are exactly the
configured keywords, `queryTokensAndPrefixMatched` is the number of keywords
plus one, because `prefixMatched` is true when no prefix is configured and is
counted. -/
theorem Score_exact_count (MAX_TOKENS : Nat) (m0 : KeywordMatcher) (kw : List StringT)
    (h : kw.length ≤ MAX_TOKENS) :
    ((KeywordMatcher.SetKeywords MAX_TOKENS m0 kw kw.length none).Score kw
        kw.length).m_bPrefixMatched = true ∧
      ((KeywordMatcher.SetKeywords MAX_TOKENS m0 kw kw.length none).Score kw
        kw.length).m_numQueryTokensAndPrefixMatched = kw.length + 1 :=
  ⟨(Score_exact_fields MAX_TOKENS m0 kw h).1, (Score_exact_fields MAX_TOKENS m0 kw h).2.1⟩

/-- C2 amended, at keywords `["central", "park"]` with `MAX_TOKENS = 32`. -/
theorem Score_exact_count_witness :
    [tokCentral, tokPark].length ≤ 32 ∧
    ((KeywordMatcher.SetKeywords 32 KeywordMatcher.init [tokCentral, tokPark]
        [tokCentral, tokPark].length none).Score [tokCentral, tokPark]
        [tokCentral, tokPark].length).m_bPrefixMatched = true ∧
    ((KeywordMatcher.SetKeywords 32 KeywordMatcher.init [tokCentral, tokPark]
        [tokCentral, tokPark].length none).Score [tokCentral, tokPark]
        [tokCentral, tokPark].length).m_numQueryTokensAndPrefixMatched =
      [tokCentral, tokPark].length + 1 :=
  ⟨by decide, Score_exact_count 32 KeywordMatcher.init [tokCentral, tokPark] (by decide)⟩

/-! ### Keyword order and the distance -/

theorem Score_reversed_value (MAX_TOKENS : Nat) (m0 : KeywordMatcher) (a b : StringT)
    (hab : a ≠ b) (hM : 2 ≤ MAX_TOKENS) :
    (KeywordMatcher.SetKeywords MAX_TOKENS m0 [b, a] 2 none).Score [a, b] 2 =
      { m_sumTokenMatchDistance := 3, m_nameTokensMatched := 4294967295,
        m_numQueryTokensAndPrefixMatched := 3, m_bFullQueryMatched := true,
        m_bPrefixMatched := true } := by
  have hba : b ≠ a := Ne.symm hab
  rw [SetKeywords_none, Nat.min_eq_right hM]
  simp [KeywordMatcher.Score, keywordLoop, keywordInner, prefixBlock, countMatched, maskLoop,
    MatchState.onKeywordMatch, hab, hba, toUInt32, addDistance, absInt32]

theorem Score_ordered_value (MAX_TOKENS : Nat) (m0 : KeywordMatcher) (a b : StringT)
    (hab : a ≠ b) (hM : 2 ≤ MAX_TOKENS) :
    (KeywordMatcher.SetKeywords MAX_TOKENS m0 [a, b] 2 none).Score [a, b] 2 =
      { m_sumTokenMatchDistance := 0, m_nameTokensMatched := 4294967295,
        m_numQueryTokensAndPrefixMatched := 3, m_bFullQueryMatched := true,
        m_bPrefixMatched := true } := by
  have hba : b ≠ a := Ne.symm hab
  rw [SetKeywords_none, Nat.min_eq_right hM]
  simp [KeywordMatcher.Score, keywordLoop, keywordInner, prefixBlock, countMatched, maskLoop,
    MatchState.onKeywordMatch, hab, hba, toUInt32, addDistance, absInt32]

theorem Score_reversed_value_one (m0 : KeywordMatcher) (a b : StringT) (hab : a ≠ b) :
    (KeywordMatcher.SetKeywords 1 m0 [b, a] 2 none).Score [a, b] 2 =
      { m_sumTokenMatchDistance := 1, m_nameTokensMatched := 2147483647,
        m_numQueryTokensAndPrefixMatched := 2, m_bFullQueryMatched := true,
        m_bPrefixMatched := true } := by
  have hba : b ≠ a := Ne.symm hab
  rw [SetKeywords_none]
  simp [KeywordMatcher.Score, keywordLoop, keywordInner, prefixBlock, countMatched, maskLoop,
    MatchState.onKeywordMatch, hab, hba, toUInt32, addDistance, absInt32]
  decide

theorem Score_ordered_value_one (m0 : KeywordMatcher) (a b : StringT) :
    (KeywordMatcher.SetKeywords 1 m0 [a, b] 2 none).Score [a, b] 2 =
      { m_sumTokenMatchDistance := 0, m_nameTokensMatched := 3221225471,
        m_numQueryTokensAndPrefixMatched := 2, m_bFullQueryMatched := true,
        m_bPrefixMatched := true } := by
  rw [SetKeywords_none]
  simp [KeywordMatcher.Score, keywordLoop, keywordInner, prefixBlock, countMatched, maskLoop,
    MatchState.onKeywordMatch, toUInt32, addDistance, absInt32]
  decide

/-- C3: reversed keyword order ranks strictly lower.  For distinct tokens `a`, `b`
and no prefix, the name `[a, b]` scored under keywords `[b, a]` and under
keywords `[a, b]` has `fullQueryMatched = true` and the same
`queryTokensAndPrefixMatched` both times; the reversed configuration has the
larger `sumTokenMatchDistance` and is smaller under `operator <`. -/
theorem Score_reversed_ranks_lower (MAX_TOKENS : Nat) (m0 : KeywordMatcher) (a b : StringT)
    (hab : a ≠ b) (hM : 1 ≤ MAX_TOKENS) :
    ((KeywordMatcher.SetKeywords MAX_TOKENS m0 [b, a] 2 none).Score [a, b] 2).m_bFullQueryMatched
        = true ∧
    ((KeywordMatcher.SetKeywords MAX_TOKENS m0 [a, b] 2 none).Score [a, b] 2).m_bFullQueryMatched
        = true ∧
    ((KeywordMatcher.SetKeywords MAX_TOKENS m0 [b, a] 2 none).Score [a, b]
        2).m_numQueryTokensAndPrefixMatched =
      ((KeywordMatcher.SetKeywords MAX_TOKENS m0 [a, b] 2 none).Score [a, b]
        2).m_numQueryTokensAndPrefixMatched ∧
    ((KeywordMatcher.SetKeywords MAX_TOKENS m0 [a, b] 2 none).Score [a, b]
        2).m_sumTokenMatchDistance <
      ((KeywordMatcher.SetKeywords MAX_TOKENS m0 [b, a] 2 none).Score [a, b]
        2).m_sumTokenMatchDistance ∧
    ((KeywordMatcher.SetKeywords MAX_TOKENS m0 [b, a] 2 none).Score [a, b] 2).lt
      ((KeywordMatcher.SetKeywords MAX_TOKENS m0 [a, b] 2 none).Score [a, b] 2) = true := by
  rcases Nat.lt_or_ge MAX_TOKENS 2 with h1 | h2
  · have h : MAX_TOKENS = 1 := by omega
    subst h
    rw [Score_reversed_value_one m0 a b hab, Score_ordered_value_one m0 a b]
    decide
  · rw [Score_reversed_value MAX_TOKENS m0 a b hab h2,
      Score_ordered_value MAX_TOKENS m0 a b hab h2]
    decide

/-- C3 at `a = "central"`, `b = "park"`, `MAX_TOKENS = 32`. -/
theorem Score_reversed_ranks_lower_witness :
    tokCentral ≠ tokPark ∧ 1 ≤ 32 ∧
    ((KeywordMatcher.SetKeywords 32 KeywordMatcher.init [tokPark, tokCentral] 2 none).Score
      [tokCentral, tokPark] 2).lt
      ((KeywordMatcher.SetKeywords 32 KeywordMatcher.init [tokCentral, tokPark] 2 none).Score
        [tokCentral, tokPark] 2) = true :=
  ⟨by decide, by decide,
    (Score_reversed_ranks_lower 32 KeywordMatcher.init tokCentral tokPark (by decide)
      (by decide)).2.2.2.2⟩

/-! ### Keywords match by equality, the prefix by starts-with -/

theorem StartsWith_nil (u : StringT) : StartsWith u [] = true := by
  cases u <;> rfl

theorem Score_prefix_only_hit (MAX_TOKENS : Nat) (m0 : KeywordMatcher) (k t : StringT)
    (hne : k ≠ []) (hsw : StartsWith t k = true) :
    (KeywordMatcher.SetKeywords MAX_TOKENS m0 [] 0 (some k)).Score [t] 1 =
      { m_sumTokenMatchDistance := 0, m_nameTokensMatched := 4294967295,
        m_numQueryTokensAndPrefixMatched := 1, m_bFullQueryMatched := true,
        m_bPrefixMatched := true } := by
  cases k with
  | nil => exact absurd rfl hne
  | cons c ks =>
    simp [KeywordMatcher.SetKeywords, KeywordMatcher.Score, keywordLoop, prefixBlock,
      prefixLoop, countMatched, maskLoop, MatchState.onPrefixMatch, hsw, toUInt32, addDistance,
      absInt32]

theorem Score_prefix_only_miss (MAX_TOKENS : Nat) (m0 : KeywordMatcher) (k u : StringT)
    (hsw : StartsWith u k = false) :
    (KeywordMatcher.SetKeywords MAX_TOKENS m0 [] 0 (some k)).Score [u] 1 =
      { m_sumTokenMatchDistance := 0, m_nameTokensMatched := 2147483647,
        m_numQueryTokensAndPrefixMatched := 0, m_bFullQueryMatched := false,
        m_bPrefixMatched := false } := by
  cases k with
  | nil =>
    rw [StartsWith_nil] at hsw
    cases hsw
  | cons c ks =>
    simp [KeywordMatcher.SetKeywords, KeywordMatcher.Score, keywordLoop, prefixBlock,
      prefixLoop, countMatched, maskLoop, hsw]
    decide

/-- C5: for tokens `k ≠ t` such that `t` starts with `k`: (1) with keywords `[k]`
and no prefix, the name `[t]` matches no keyword (the count is the `1` of the
absent prefix alone, the token's mask bit is cleared) and `fullQueryMatched` is
false; (2) with zero keywords and prefix `k`, the name `[t]` has
`prefixMatched = true` and `fullQueryMatched = true`, and the match is a real
one made by starts-with: when `k` is not empty the token is consumed (its mask
bit stays set, the count is `1`, the distance `0`), whereas a name `[u]` whose
token does not start with `k` gets `prefixMatched = false`,
`fullQueryMatched = false`, count `0` and its mask bit cleared. -/
theorem Score_keyword_equality_prefix_startsWith (MAX_TOKENS : Nat) (m0 : KeywordMatcher)
    (k t : StringT) (hkt : k ≠ t) (hsw : StartsWith t k = true) (hM : 1 ≤ MAX_TOKENS) :
    (((KeywordMatcher.SetKeywords MAX_TOKENS m0 [k] 1 none).Score [t]
        1).m_numQueryTokensAndPrefixMatched = 1 ∧
      ((KeywordMatcher.SetKeywords MAX_TOKENS m0 [k] 1 none).Score [t] 1).m_bPrefixMatched = true ∧
      ((KeywordMatcher.SetKeywords MAX_TOKENS m0 [k] 1 none).Score [t]
        1).m_nameTokensMatched = 2147483647 ∧
      ((KeywordMatcher.SetKeywords MAX_TOKENS m0 [k] 1 none).Score [t]
        1).m_bFullQueryMatched = false) ∧
    (((KeywordMatcher.SetKeywords MAX_TOKENS m0 [] 0 (some k)).Score [t] 1).m_bPrefixMatched
        = true ∧
      ((KeywordMatcher.SetKeywords MAX_TOKENS m0 [] 0 (some k)).Score [t] 1).m_bFullQueryMatched
        = true) ∧
    (k ≠ [] →
      ((KeywordMatcher.SetKeywords MAX_TOKENS m0 [] 0 (some k)).Score [t]
          1).m_nameTokensMatched = 4294967295 ∧
        ((KeywordMatcher.SetKeywords MAX_TOKENS m0 [] 0 (some k)).Score [t]
          1).m_numQueryTokensAndPrefixMatched = 1 ∧
        ((KeywordMatcher.SetKeywords MAX_TOKENS m0 [] 0 (some k)).Score [t]
          1).m_sumTokenMatchDistance = 0) ∧
    (∀ u : StringT, StartsWith u k = false →
      ((KeywordMatcher.SetKeywords MAX_TOKENS m0 [] 0 (some k)).Score [u] 1).m_bPrefixMatched
          = false ∧
        ((KeywordMatcher.SetKeywords MAX_TOKENS m0 [] 0 (some k)).Score [u]
          1).m_bFullQueryMatched = false ∧
        ((KeywordMatcher.SetKeywords MAX_TOKENS m0 [] 0 (some k)).Score [u]
          1).m_numQueryTokensAndPrefixMatched = 0 ∧
        ((KeywordMatcher.SetKeywords MAX_TOKENS m0 [] 0 (some k)).Score [u]
          1).m_nameTokensMatched = 2147483647) := by
  refine ⟨?_, ?_, ?_, ?_⟩
  · rw [SetKeywords_none, Nat.min_eq_right hM]
    simp [KeywordMatcher.Score, keywordLoop, keywordInner, prefixBlock, countMatched, maskLoop,
      hkt]
    decide
  · cases k with
    | nil =>
      simp [KeywordMatcher.SetKeywords, KeywordMatcher.Score, keywordLoop, prefixBlock,
        countMatched]
    | cons c ks =>
      simp [KeywordMatcher.SetKeywords, KeywordMatcher.Score, keywordLoop, prefixBlock,
        prefixLoop, countMatched, MatchState.onPrefixMatch, hsw]
  · intro hne
    rw [Score_prefix_only_hit MAX_TOKENS m0 k t hne hsw]
    exact ⟨rfl, rfl, rfl⟩
  · intro u hu
    rw [Score_prefix_only_miss MAX_TOKENS m0 k u hu]
    exact ⟨rfl, rfl, rfl, rfl⟩

/-- C5 at `k = "cent"`, `t = "central"`, `MAX_TOKENS = 32`, with `u = "park"` as
the name that does not start with the prefix. -/
theorem Score_keyword_equality_prefix_startsWith_witness :
    tokCent ≠ tokCentral ∧ StartsWith tokCentral tokCent = true ∧
    ((KeywordMatcher.SetKeywords 32 KeywordMatcher.init [tokCent] 1 none).Score [tokCentral]
        1).m_bFullQueryMatched = false ∧
    ((KeywordMatcher.SetKeywords 32 KeywordMatcher.init [] 0 (some tokCent)).Score [tokCentral]
        1).m_bPrefixMatched = true ∧
    ((KeywordMatcher.SetKeywords 32 KeywordMatcher.init [] 0 (some tokCent)).Score [tokCentral]
        1).m_nameTokensMatched = 4294967295 ∧
    ((KeywordMatcher.SetKeywords 32 KeywordMatcher.init [] 0 (some tokCent)).Score [tokPark]
        1).m_bPrefixMatched = false :=
  ⟨by decide, by decide,
    (Score_keyword_equality_prefix_startsWith 32 KeywordMatcher.init tokCent tokCentral
      (by decide) (by decide) (by decide)).1.2.2.2,
    (Score_keyword_equality_prefix_startsWith 32 KeywordMatcher.init tokCent tokCentral
      (by decide) (by decide) (by decide)).2.1.1,
    ((Score_keyword_equality_prefix_startsWith 32 KeywordMatcher.init tokCent tokCentral
      (by decide) (by decide) (by decide)).2.2.1 (by decide)).1,
    ((Score_keyword_equality_prefix_startsWith 32 KeywordMatcher.init tokCent tokCentral
      (by decide) (by decide) (by decide)).2.2.2 tokPark (by decide)).1⟩

/-! ### Truncation to `MAX_TOKENS` -/

theorem keywordInner_congr (m m2 : KeywordMatcher) (tokens : List StringT) (i : Nat)
    (h : m.m_keywords.getD i [] = m2.m_keywords.getD i []) :
    ∀ (left j : Nat) (st : MatchState),
      keywordInner m tokens i left j st = keywordInner m2 tokens i left j st := by
  intro left
  induction left with
  | zero => intro j st; rfl
  | succ n ih =>
    intro j st
    simp only [keywordInner, h, ih]

theorem keywordLoop_congr (m m2 : KeywordMatcher) (tokens : List StringT) (count : Nat) :
    ∀ (left i : Nat) (st : MatchState),
      (∀ x, i ≤ x → x < i + left → m.m_keywords.getD x [] = m2.m_keywords.getD x []) →
      keywordLoop m tokens count left i st = keywordLoop m2 tokens count left i st := by
  intro left
  induction left with
  | zero => intro i st _; rfl
  | succ n ih =>
    intro i st h
    simp only [keywordLoop]
    rw [keywordInner_congr m m2 tokens i (h i (le_refl _) (by omega)),
      ih (i + 1) _ (fun x h1 h2 => h x (by omega) (by omega))]

theorem prefixLoop_congr (m m2 : KeywordMatcher) (p : StringT) (tokens : List StringT)
    (h : m.m_keywordsCount = m2.m_keywordsCount) :
    ∀ (left j : Nat) (st : MatchState),
      prefixLoop m p tokens left j st = prefixLoop m2 p tokens left j st := by
  intro left
  induction left with
  | zero => intro j st; rfl
  | succ n ih =>
    intro j st
    simp only [prefixLoop, h, ih]

/-- A score depends on the keyword array only through the keywords in use. -/
theorem Score_congr (m m2 : KeywordMatcher) (tokens : List StringT) (count : Nat)
    (hcount : m.m_keywordsCount = m2.m_keywordsCount) (hp : m.m_prefix = m2.m_prefix)
    (hk : ∀ x, x < m.m_keywordsCount → m.m_keywords.getD x [] = m2.m_keywords.getD x []) :
    m.Score tokens count = m2.Score tokens count := by
  have h1 : ∀ st, keywordLoop m tokens count m2.m_keywordsCount 0 st =
      keywordLoop m2 tokens count m2.m_keywordsCount 0 st := by
    intro st
    rw [← hcount]
    exact keywordLoop_congr m m2 tokens count _ 0 st (fun x _ hx => hk x (by omega))
  have h2 : ∀ st, prefixBlock m tokens count st = prefixBlock m2 tokens count st := by
    intro st
    unfold prefixBlock
    rw [← hp]
    cases m.m_prefix with
    | none => rfl
    | some p => exact prefixLoop_congr m m2 p tokens hcount _ _ _
  unfold KeywordMatcher.Score
  simp only [hcount, h1, h2]

theorem getD_of_take_eq (l l2 : List StringT) (n x : Nat) (h : l.take n = l2.take n)
    (hx : x < n) : l.getD x [] = l2.getD x [] := by
  have h1 : (l.take n)[x]? = (l2.take n)[x]? := by rw [h]
  rw [List.getElem?_take, List.getElem?_take] at h1
  simp only [hx, if_true] at h1
  simp [List.getD_eq_getElem?_getD, h1]

/-- C10: keyword truncation.  When more than `MAX_TOKENS` keywords are supplied,
the score is the one obtained after `SetKeywords(keywords, MAX_TOKENS, prefix)`,
and replacing the keywords at positions `MAX_TOKENS` and beyond by anything else
changes no field of the score. -/
theorem Score_keywords_truncated (MAX_TOKENS : Nat) (m0 : KeywordMatcher)
    (keywords : List StringT) (count : Nat) (pfx : Option StringT) (tokens : List StringT)
    (n : Nat) (h : MAX_TOKENS < count) :
    (KeywordMatcher.SetKeywords MAX_TOKENS m0 keywords count pfx).Score tokens n =
        (KeywordMatcher.SetKeywords MAX_TOKENS m0 keywords MAX_TOKENS pfx).Score tokens n ∧
      ∀ keywords2 : List StringT, keywords2.take MAX_TOKENS = keywords.take MAX_TOKENS →
        (KeywordMatcher.SetKeywords MAX_TOKENS m0 keywords2 count pfx).Score tokens n =
          (KeywordMatcher.SetKeywords MAX_TOKENS m0 keywords count pfx).Score tokens n := by
  constructor
  · have : KeywordMatcher.SetKeywords MAX_TOKENS m0 keywords count pfx =
        KeywordMatcher.SetKeywords MAX_TOKENS m0 keywords MAX_TOKENS pfx := by
      simp [KeywordMatcher.SetKeywords, Nat.min_eq_left (Nat.le_of_lt h)]
    rw [this]
  · intro keywords2 h2
    apply Score_congr
    · rfl
    · rfl
    · intro x hx
      have hx2 : x < MAX_TOKENS := by
        have : x < min MAX_TOKENS count := hx
        omega
      exact getD_of_take_eq _ _ MAX_TOKENS x h2 hx2

/-- C10 at 33 keywords with `MAX_TOKENS = 32`. -/
theorem Score_keywords_truncated_witness :
    32 < 33 ∧
    (KeywordMatcher.SetKeywords 32 KeywordMatcher.init (List.replicate 33 tokPark) 33 none).Score
        [tokCentral, tokPark] 2 =
      (KeywordMatcher.SetKeywords 32 KeywordMatcher.init (List.replicate 33 tokPark) 32 none).Score
        [tokCentral, tokPark] 2 :=
  ⟨by decide,
    (Score_keywords_truncated 32 KeywordMatcher.init (List.replicate 33 tokPark) 33 none
      [tokCentral, tokPark] 2 (by decide)).1⟩

/-- Whatever the value of `MAX_TOKENS ≥ 1`, a keyword found only at position
`MAX_TOKENS` of the token array is matched when `count = MAX_TOKENS + 1` is
passed, and is not matched when `count = MAX_TOKENS` is passed. -/
theorem Score_count_beyond_max (MAX_TOKENS : Nat) (m0 : KeywordMatcher) (hM : 1 ≤ MAX_TOKENS) :
    ((KeywordMatcher.SetKeywords MAX_TOKENS m0 [[107]] 1 none).Score
        (List.replicate MAX_TOKENS [97] ++ [[107]]) (MAX_TOKENS + 1)).m_bFullQueryMatched = true ∧
    ((KeywordMatcher.SetKeywords MAX_TOKENS m0 [[107]] 1 none).Score
        (List.replicate MAX_TOKENS [97] ++ [[107]]) MAX_TOKENS).m_bFullQueryMatched = false := by
  rw [SetKeywords_none, Nat.min_eq_right hM]
  have hnot : ([107] : StringT) ∉ List.replicate MAX_TOKENS ([97] : StringT) := by
    intro h
    have := List.eq_of_mem_replicate h
    exact absurd this (by decide)
  constructor
  · obtain ⟨h1, _, h3⟩ := Score_fields (KeywordMatcher.mk [[107]] 1 none)
      (List.replicate MAX_TOKENS [97] ++ [[107]]) (MAX_TOKENS + 1) (by decide) (by simp)
    have hu : unmatchedTokens (KeywordMatcher.mk [[107]] 1 none)
        (List.replicate MAX_TOKENS [97] ++ [[107]]) (MAX_TOKENS + 1) =
        List.replicate MAX_TOKENS [97] := by
      have ht : (List.replicate MAX_TOKENS ([97] : StringT) ++ [[107]]).take (MAX_TOKENS + 1) =
          List.replicate MAX_TOKENS [97] ++ [[107]] := by
        apply List.take_of_length_le
        simp
      simp only [unmatchedTokens, ht, List.take_succ_cons, List.take_zero, List.diff_cons,
        List.diff_nil]
      rw [List.erase_append_right _ hnot]
      simp
    rw [hu] at h3
    simp only at h1
    rw [h3, h1]
    simp
  · obtain ⟨h1, _, h3⟩ := Score_fields (KeywordMatcher.mk [[107]] 1 none)
      (List.replicate MAX_TOKENS [97] ++ [[107]]) MAX_TOKENS (by decide) (by simp)
    have hu : unmatchedTokens (KeywordMatcher.mk [[107]] 1 none)
        (List.replicate MAX_TOKENS [97] ++ [[107]]) MAX_TOKENS =
        List.replicate MAX_TOKENS [97] := by
      have ht : (List.replicate MAX_TOKENS ([97] : StringT) ++ [[107]]).take MAX_TOKENS =
          List.replicate MAX_TOKENS [97] := by
        rw [List.take_append_of_le_length (by simp)]
        apply List.take_of_length_le
        simp
      simp only [unmatchedTokens, ht, List.take_succ_cons, List.take_zero, List.diff_cons,
        List.diff_nil]
      exact List.erase_of_not_mem hnot
    rw [hu] at h3
    rw [h3]
    simp

/-- C9 fails on the code: `Score(tokens, count)` does not trim `count`.  With
`MAX_TOKENS = 32`, keyword `"k"`, no prefix, and 33 name tokens of which only
the last is `"k"`, the call with `count = 33` matches the keyword at position
32 (`fullQueryMatched = true`, count `2`), whereas the call with `count = 32`
does not (`fullQueryMatched = false`, count `1`); the name overload
`Score(StringT const &)` trims and returns the latter. -/
theorem Score_tokens_count_not_trimmed :
    ((KeywordMatcher.SetKeywords 32 KeywordMatcher.init [[107]] 1 none).Score
        (List.replicate 32 [97] ++ [[107]]) 33).m_bFullQueryMatched = true ∧
    ((KeywordMatcher.SetKeywords 32 KeywordMatcher.init [[107]] 1 none).Score
        (List.replicate 32 [97] ++ [[107]]) 33).m_numQueryTokensAndPrefixMatched = 2 ∧
    ((KeywordMatcher.SetKeywords 32 KeywordMatcher.init [[107]] 1 none).Score
        (List.replicate 32 [97] ++ [[107]]) 32).m_bFullQueryMatched = false ∧
    ((KeywordMatcher.SetKeywords 32 KeywordMatcher.init [[107]] 1 none).Score
        (List.replicate 32 [97] ++ [[107]]) 32).m_numQueryTokensAndPrefixMatched = 1 ∧
    (KeywordMatcher.ScoreOfName 32 (fun _ => List.replicate 32 [97] ++ [[107]])
        (KeywordMatcher.SetKeywords 32 KeywordMatcher.init [[107]] 1 none) []) =
      (KeywordMatcher.SetKeywords 32 KeywordMatcher.init [[107]] 1 none).Score
        (List.replicate 32 [97] ++ [[107]]) 32 := by
  decide

/-! ### Match success does not depend on the order -/

theorem any_eq_of_perm (f : StringT → Bool) (l l2 : List StringT) (h : l.Perm l2) :
    l.any f = l2.any f := by
  rw [Bool.eq_iff_iff, List.any_eq_true, List.any_eq_true]
  constructor
  · rintro ⟨x, hx, hf⟩
    exact ⟨x, h.mem_iff.1 hx, hf⟩
  · rintro ⟨x, hx, hf⟩
    exact ⟨x, h.mem_iff.2 hx, hf⟩

theorem beq_instance_eq : (List.instBEq : BEq StringT) = instBEqOfDecidableEq := by
  have h : ∀ a b : StringT, (a == b) = decide (a = b) := by
    intro a b
    rw [Bool.eq_iff_iff, beq_iff_eq, decide_eq_true_iff]
  show (BEq.mk List.beq : BEq StringT) = BEq.mk (fun a b => decide (a = b))
  congr
  funext a b
  exact h a b

theorem diff_perm (l l2 t t2 : List StringT) (hl : l.Perm l2) (ht : t.Perm t2) :
    (l.diff t).Perm (l2.diff t2) := by
  have h := List.Perm.diff hl ht
  rw [← beq_instance_eq] at h
  exact h

/-- C4: match success is order-independent.  For every configuration and every
name-token sequence, permuting the keywords in use and permuting the name
tokens leaves `fullQueryMatched`, `prefixMatched` and
`queryTokensAndPrefixMatched` unchanged. -/
theorem Score_match_success_order_independent (m m2 : KeywordMatcher)
    (tokens tokens2 : List StringT)
    (hk : m.m_keywordsCount ≤ m.m_keywords.length)
    (hk2 : m2.m_keywordsCount ≤ m2.m_keywords.length)
    (hperm : (m.m_keywords.take m.m_keywordsCount).Perm (m2.m_keywords.take m2.m_keywordsCount))
    (hp : m.m_prefix = m2.m_prefix) (ht : tokens.Perm tokens2) :
    (m.Score tokens tokens.length).m_bFullQueryMatched =
        (m2.Score tokens2 tokens2.length).m_bFullQueryMatched ∧
      (m.Score tokens tokens.length).m_bPrefixMatched =
        (m2.Score tokens2 tokens2.length).m_bPrefixMatched ∧
      (m.Score tokens tokens.length).m_numQueryTokensAndPrefixMatched =
        (m2.Score tokens2 tokens2.length).m_numQueryTokensAndPrefixMatched := by
  obtain ⟨a1, a2, a3⟩ := Score_fields m tokens tokens.length hk (le_refl _)
  obtain ⟨b1, b2, b3⟩ := Score_fields m2 tokens2 tokens2.length hk2 (le_refl _)
  have hu : (unmatchedTokens m tokens tokens.length).Perm
      (unmatchedTokens m2 tokens2 tokens2.length) := by
    simp only [unmatchedTokens, List.take_length]
    exact diff_perm _ _ _ _ ht hperm
  have hlen : tokens.length = tokens2.length := ht.length_eq
  have hq : m.m_keywordsCount = m2.m_keywordsCount := by
    have := hperm.length_eq
    simp only [List.length_take] at this
    omega
  have hpm : (m.Score tokens tokens.length).m_bPrefixMatched =
      (m2.Score tokens2 tokens2.length).m_bPrefixMatched := by
    rw [a1, b1, ← hp]
    cases m.m_prefix with
    | none => rfl
    | some p => exact any_eq_of_perm _ _ _ hu
  refine ⟨?_, hpm, ?_⟩
  · rw [a3, b3, hpm, hu.length_eq, hlen, hq]
  · rw [a2, b2, hpm, hu.length_eq, hlen]

/-- C4 at keywords `["park", "central"]` against `["central", "park"]` and name
tokens `["central", "park"]` against `["park", "central"]`. -/
theorem Score_match_success_order_independent_witness :
    (KeywordMatcher.mk [tokPark, tokCentral] 2 none).m_keywordsCount ≤
      (KeywordMatcher.mk [tokPark, tokCentral] 2 none).m_keywords.length ∧
    ((KeywordMatcher.mk [tokPark, tokCentral] 2 none).Score [tokCentral, tokPark]
        [tokCentral, tokPark].length).m_bFullQueryMatched =
      ((KeywordMatcher.mk [tokCentral, tokPark] 2 none).Score [tokPark, tokCentral]
        [tokPark, tokCentral].length).m_bFullQueryMatched :=
  ⟨by decide,
    (Score_match_success_order_independent (KeywordMatcher.mk [tokPark, tokCentral] 2 none)
      (KeywordMatcher.mk [tokCentral, tokPark] 2 none) [tokCentral, tokPark]
      [tokPark, tokCentral] (by decide) (by decide) (List.Perm.swap _ _ _) rfl
      (List.Perm.swap _ _ _)).1⟩

/-! ### The coverage mask -/

theorem testBit_clear (mask i j : Nat) (hi : i < 32) (hj : j < 32) :
    (mask &&& (4294967295 ^^^ (1 <<< (31 - i)))).testBit (31 - j) =
      (mask.testBit (31 - j) && !decide (i = j)) := by
  have hfull : (4294967295 : Nat).testBit (31 - j) = true := by
    have := Nat.testBit_two_pow_sub_one 32 (31 - j)
    simp only [show (2 : Nat) ^ 32 - 1 = 4294967295 by norm_num] at this
    rw [this]
    simp only [decide_eq_true_eq]
    omega
  rw [Nat.testBit_and, Nat.testBit_xor, Nat.one_shiftLeft, Nat.testBit_two_pow, hfull]
  by_cases hij : i = j
  · subst hij
    simp
  · have : ¬ (31 - i = 31 - j) := by omega
    simp [hij, this]

theorem maskLoop_testBit (flags : List Bool) :
    ∀ (left i mask j : Nat), i + left ≤ 32 → j < 32 →
      (maskLoop flags left i mask).testBit (31 - j) =
        (mask.testBit (31 - j) && !(decide (i ≤ j ∧ j < i + left) && !flags.getD j false)) := by
  intro left
  induction left with
  | zero =>
    intro i mask j _ _
    have : ¬ (i ≤ j ∧ j < i + 0) := by omega
    rw [decide_eq_false this]
    simp [maskLoop]
  | succ n ih =>
    intro i mask j h1 h2
    simp only [maskLoop]
    rw [ih (i + 1) _ j (by omega) h2]
    by_cases hij : i = j
    · subst hij
      have e1 : ¬ (i + 1 ≤ i ∧ i < i + 1 + n) := by omega
      have e2 : (i ≤ i ∧ i < i + (n + 1)) := by omega
      cases hf : flags.getD i false
      · simp [e1, e2, testBit_clear mask i i (by omega) h2]
      · simp [e1, e2]
    · have e : (i + 1 ≤ j ∧ j < i + 1 + n) ↔ (i ≤ j ∧ j < i + (n + 1)) := by omega
      cases hf : flags.getD i false
      · simp [e, testBit_clear mask i j (by omega) h2, hij]
      · simp [e]

theorem maskLoop_le (flags : List Bool) :
    ∀ (left i mask : Nat), maskLoop flags left i mask ≤ mask := by
  intro left
  induction left with
  | zero => intro i mask; exact le_refl _
  | succ n ih =>
    intro i mask
    simp only [maskLoop]
    refine le_trans (ih (i + 1) _) ?_
    split
    · exact Nat.and_le_left
    · exact le_refl _

theorem mem_diff_of_nodup (l t : List StringT) (a : StringT) (h : l.Nodup) :
    a ∈ l.diff t ↔ a ∈ l ∧ a ∉ t := by
  have h2 := @List.Nodup.mem_diff_iff StringT l t a _ h
  rw [← beq_instance_eq] at h2
  exact h2

/-- With pairwise distinct tokens, a flag is clear exactly when its token is
among the free tokens. -/
theorem flag_clear_iff_mem_free (tokens : List StringT) (flags : List Bool) (j : Nat)
    (hnd : tokens.Nodup) (hlen : flags.length = tokens.length) (hj : j < tokens.length) :
    flags.getD j false = false ↔ tokens.getD j [] ∈ freeTokens tokens flags := by
  constructor
  · intro h
    exact (mem_freeTokens _ _ _).2 ⟨j, by omega, hj, h, rfl⟩
  · intro h
    obtain ⟨x, h1, h2, h3, h4⟩ := (mem_freeTokens _ _ _).1 h
    rw [List.getD_eq_getElem _ _ h2, List.getD_eq_getElem _ _ hj] at h4
    have : x = j := hnd.getElem_inj_iff.1 h4
    rw [← this]
    exact h3

/-- C8: mask semantics.  With no prefix configured and pairwise distinct name
tokens (any number of them), the mask is a 32-bit value in which, for every
position `j < 32`, bit `31 - j` is set iff `j` is past the end of the name or
name token `j` equals one of the keywords in use; tokens at positions 32 and
beyond have no bit and so clear none. -/
theorem Score_mask_semantics (MAX_TOKENS : Nat) (m0 : KeywordMatcher) (keywords : List StringT)
    (count : Nat) (tokens : List StringT) (hcount : count ≤ keywords.length)
    (hnd : tokens.Nodup) :
    ((KeywordMatcher.SetKeywords MAX_TOKENS m0 keywords count none).Score tokens
        tokens.length).m_nameTokensMatched < 4294967296 ∧
      ∀ j, j < 32 →
        ((((KeywordMatcher.SetKeywords MAX_TOKENS m0 keywords count none).Score tokens
            tokens.length).m_nameTokensMatched).testBit (31 - j) = true ↔
          (tokens.length ≤ j ∨
            (j < tokens.length ∧
              tokens.getD j [] ∈ keywords.take (min MAX_TOKENS count)))) := by
  rw [SetKeywords_none]
  have hk : min MAX_TOKENS count ≤ keywords.length := le_trans (Nat.min_le_right _ _) hcount
  have hinit : ∀ x, 0 ≤ x →
      (List.replicate (min MAX_TOKENS count) false).getD x false = false := by
    intro x _
    by_cases hx : x < min MAX_TOKENS count <;>
      simp [List.getD_eq_getElem?_getD, hx, List.getElem?_replicate]
  obtain ⟨_, c2, c3, _, _⟩ := keywordLoop_spec
    { m_keywords := keywords, m_keywordsCount := min MAX_TOKENS count, m_prefix := none }
    tokens tokens.length (le_refl _) (min MAX_TOKENS count) 0
    { isQueryTokenMatched := List.replicate (min MAX_TOKENS count) false
      isNameTokenMatched := List.replicate tokens.length false
      sumTokenMatchDistance := 0
      prevTokenMatchDistance := 0
      bPrefixMatched := true } (by simp) hinit (by simp)
  simp only [freeTokens_replicate_false, map_getD_range _ _ hk, List.take_length] at c3
  have hsc : ((KeywordMatcher.mk keywords (min MAX_TOKENS count) none).Score tokens
      tokens.length).m_nameTokensMatched =
      maskLoop (keywordLoop (KeywordMatcher.mk keywords (min MAX_TOKENS count) none) tokens
          tokens.length (min MAX_TOKENS count) 0
          { isQueryTokenMatched := List.replicate (min MAX_TOKENS count) false
            isNameTokenMatched := List.replicate tokens.length false
            sumTokenMatchDistance := 0
            prevTokenMatchDistance := 0
            bPrefixMatched := true }).isNameTokenMatched
        (min 32 (keywordLoop (KeywordMatcher.mk keywords (min MAX_TOKENS count) none) tokens
          tokens.length (min MAX_TOKENS count) 0
          { isQueryTokenMatched := List.replicate (min MAX_TOKENS count) false
            isNameTokenMatched := List.replicate tokens.length false
            sumTokenMatchDistance := 0
            prevTokenMatchDistance := 0
            bPrefixMatched := true }).isNameTokenMatched.length) 0 4294967295 := rfl
  rw [hsc]
  generalize (keywordLoop (KeywordMatcher.mk keywords (min MAX_TOKENS count) none) tokens
    tokens.length (min MAX_TOKENS count) 0
    { isQueryTokenMatched := List.replicate (min MAX_TOKENS count) false
      isNameTokenMatched := List.replicate tokens.length false
      sumTokenMatchDistance := 0
      prevTokenMatchDistance := 0
      bPrefixMatched := true }).isNameTokenMatched = F at c2 c3 ⊢
  refine ⟨Nat.lt_of_le_of_lt (maskLoop_le F _ 0 4294967295) (by norm_num), ?_⟩
  intro j hj
  rw [maskLoop_testBit _ _ 0 4294967295 j (by omega) hj, c2]
  have hfull : (4294967295 : Nat).testBit (31 - j) = true := by
    have := Nat.testBit_two_pow_sub_one 32 (31 - j)
    simp only [show (2 : Nat) ^ 32 - 1 = 4294967295 by norm_num] at this
    rw [this]
    simp only [decide_eq_true_eq]
    omega
  rw [hfull]
  by_cases hjn : j < tokens.length
  · have hin : (0 ≤ j ∧ j < 0 + min 32 tokens.length) := by omega
    have hflag := flag_clear_iff_mem_free tokens F j hnd c2 hjn
    rw [c3, mem_diff_of_nodup _ _ _ hnd] at hflag
    have hmem : tokens.getD j [] ∈ tokens := by
      rw [List.getD_eq_getElem _ _ hjn]
      exact List.getElem_mem hjn
    rw [decide_eq_true hin]
    constructor
    · intro h
      right
      refine ⟨hjn, ?_⟩
      by_contra hnot
      have := hflag.2 ⟨hmem, hnot⟩
      rw [this] at h
      exact absurd h (by decide)
    · rintro (h | ⟨_, h⟩)
      · omega
      · have : ¬ (F.getD j false = false) := fun hc => (hflag.1 hc).2 h
        simp only [Bool.not_eq_false] at this
        rw [this]
        rfl
  · have hout : ¬ (0 ≤ j ∧ j < 0 + min 32 tokens.length) := by omega
    rw [decide_eq_false hout]
    simp only [Bool.false_and, Bool.not_false, Bool.and_self, true_iff]
    left
    omega

/-- C8 at name tokens `["a", "b", "c"]` with the single keyword `"b"`: the mask is
`0x5FFFFFFF`, bits 31 and 29 clear and bit 30 set. -/
theorem Score_mask_semantics_witness :
    [[98]].length ≤ ([[98]] : List StringT).length ∧ ([[97], [98], [99]] : List StringT).Nodup ∧
    ((KeywordMatcher.SetKeywords 32 KeywordMatcher.init [[98]] 1 none).Score [[97], [98], [99]]
        3).m_nameTokensMatched = 1610612735 ∧
    (((KeywordMatcher.SetKeywords 32 KeywordMatcher.init [[98]] 1 none).Score [[97], [98], [99]]
        [[97], [98], [99]].length).m_nameTokensMatched).testBit (31 - 1) = true :=
  ⟨by decide, by decide, by decide,
    ((Score_mask_semantics 32 KeywordMatcher.init [[98]] 1 [[97], [98], [99]] (by decide)
      (by decide)).2 1 (by decide)).2 (Or.inr ⟨by decide, by decide⟩)⟩

/-! ### The empty prefix and the empty configuration -/

/-- C11: an empty prefix is the same as no prefix.  After
`SetKeywords(keywords, count, p)` with `p` the empty token the configuration,
and so every field of every score (the mask included), is the one obtained
with no prefix. -/
theorem Score_empty_prefix_is_no_prefix (MAX_TOKENS : Nat) (m0 : KeywordMatcher)
    (keywords : List StringT) (count : Nat) (tokens : List StringT) (n : Nat) :
    KeywordMatcher.SetKeywords MAX_TOKENS m0 keywords count (some []) =
        KeywordMatcher.SetKeywords MAX_TOKENS m0 keywords count none ∧
      (KeywordMatcher.SetKeywords MAX_TOKENS m0 keywords count (some [])).Score tokens n =
        (KeywordMatcher.SetKeywords MAX_TOKENS m0 keywords count none).Score tokens n :=
  ⟨rfl, rfl⟩

theorem maskLoop_all_clear (flags : List Bool) :
    ∀ (left i : Nat), i + left ≤ 32 →
      (∀ x, i ≤ x → x < i + left → flags.getD x false = false) →
      maskLoop flags left i (2 ^ (32 - i) - 1) = 2 ^ (32 - (i + left)) - 1 := by
  intro left
  induction left with
  | zero => intro i _ _; rfl
  | succ n ih =>
    intro i h1 h2
    have hstep : (2 ^ (32 - i) - 1) &&& (4294967295 ^^^ (1 <<< (31 - i))) =
        2 ^ (32 - (i + 1)) - 1 := by
      have hi : i < 32 := by omega
      interval_cases i <;> rfl
    simp only [maskLoop, h2 i (le_refl _) (by omega), Bool.not_false, if_true, hstep]
    rw [ih (i + 1) (by omega) (fun x hx1 hx2 => h2 x (by omega) (by omega))]
    congr 2
    omega

/-- The score of any name under the empty configuration. -/
theorem Score_empty_configuration_value (tokens : List StringT) (n : Nat) :
    (KeywordMatcher.mk [] 0 none).Score tokens n =
      { m_sumTokenMatchDistance := 0
        m_nameTokensMatched := 2 ^ (32 - min 32 n) - 1
        m_numQueryTokensAndPrefixMatched := 1
        m_bFullQueryMatched := true
        m_bPrefixMatched := true } := by
  have hmask : maskLoop (List.replicate n false) (min 32 (List.replicate n false).length) 0
      4294967295 = 2 ^ (32 - min 32 n) - 1 := by
    have h := maskLoop_all_clear (List.replicate n false) (min 32 n) 0 (by omega)
      (fun x _ hx => by
        by_cases hxn : x < n <;> simp [List.getD_eq_getElem?_getD, hxn, List.getElem?_replicate])
    simpa using h
  simp only [KeywordMatcher.Score, keywordLoop, prefixBlock, countMatched, hmask]
  rfl

/-- C12 as stated fails: after `Clear()` the name `["park"]` gets
`queryTokensAndPrefixMatched = 1`, not `0`, and the mask `0x7FFFFFFF`, not
`0xFFFFFFFF`. -/
theorem Score_after_Clear_is_not_zero_and_full :
    ((KeywordMatcher.Clear KeywordMatcher.init).Score [tokPark]
        1).m_numQueryTokensAndPrefixMatched = 1 ∧
    ((KeywordMatcher.Clear KeywordMatcher.init).Score [tokPark]
        1).m_nameTokensMatched = 2147483647 ∧
    ¬ (((KeywordMatcher.Clear KeywordMatcher.init).Score [tokPark]
        1).m_numQueryTokensAndPrefixMatched = 0 ∧
      ((KeywordMatcher.Clear KeywordMatcher.init).Score [tokPark]
        1).m_nameTokensMatched = 4294967295) := by
  decide

/-- C12 amended: after `Clear()` (zero keywords, no prefix), for every name-token
sequence of `n` tokens the score has no keyword match
(`queryTokensAndPrefixMatched = 1`, the absent prefix alone being counted), a
mask whose top `min(32, n)` bits are cleared, that is `2 ^ (32 - min(32, n)) - 1`
(fully set exactly for the empty name), `sumTokenMatchDistance = 0` and
`fullQueryMatched = true`. -/
theorem Score_after_Clear (m0 : KeywordMatcher) (tokens : List StringT) (n : Nat) :
    ((KeywordMatcher.Clear m0).Score tokens n).m_numQueryTokensAndPrefixMatched = 1 ∧
      ((KeywordMatcher.Clear m0).Score tokens n).m_nameTokensMatched =
        2 ^ (32 - min 32 n) - 1 ∧
      (((KeywordMatcher.Clear m0).Score tokens n).m_nameTokensMatched = 4294967295 ↔ n = 0) ∧
      ((KeywordMatcher.Clear m0).Score tokens n).m_sumTokenMatchDistance = 0 ∧
      ((KeywordMatcher.Clear m0).Score tokens n).m_bFullQueryMatched = true := by
  have h : (KeywordMatcher.Clear m0).Score tokens n = _ := Score_empty_configuration_value tokens n
  rw [h]
  refine ⟨rfl, rfl, ?_, rfl, rfl⟩
  show 2 ^ (32 - min 32 n) - 1 = 4294967295 ↔ n = 0
  constructor
  · intro hv
    by_contra hn
    have hlt : 32 - min 32 n ≤ 31 := by omega
    have hpow : 2 ^ (32 - min 32 n) ≤ 2 ^ 31 := Nat.pow_le_pow_right (by norm_num) hlt
    have : (2 : Nat) ^ 31 = 2147483648 := by norm_num
    omega
  · rintro rfl
    rfl

/-- C13: vacuous full match.  With zero keywords and no prefix configured (after
`Clear()`, or after `SetKeywords` with count `0` and an absent or empty
prefix), `fullQueryMatched` is true for every name-token sequence, the empty
one included. -/
theorem Score_vacuous_full_match (MAX_TOKENS : Nat) (m0 : KeywordMatcher)
    (keywords : List StringT) (tokens : List StringT) (n : Nat) :
    ((KeywordMatcher.Clear m0).Score tokens n).m_bFullQueryMatched = true ∧
      ((KeywordMatcher.SetKeywords MAX_TOKENS m0 keywords 0 none).Score tokens
        n).m_bFullQueryMatched = true ∧
      ((KeywordMatcher.SetKeywords MAX_TOKENS m0 keywords 0 (some [])).Score tokens
        n).m_bFullQueryMatched = true ∧
      ((KeywordMatcher.Clear m0).Score [] 0).m_bFullQueryMatched = true := by
  have h : ∀ (kws toks : List StringT) (k : Nat), ((KeywordMatcher.mk kws 0 none).Score toks
      k).m_bFullQueryMatched = true := by
    intro kws toks k
    simp [KeywordMatcher.Score, keywordLoop, prefixBlock, countMatched]
  have h0 : min MAX_TOKENS 0 = 0 := Nat.min_eq_right (Nat.zero_le _)
  refine ⟨h [] tokens n, ?_, ?_, h [] [] 0⟩
  · show ((KeywordMatcher.mk keywords (min MAX_TOKENS 0) none).Score tokens
      n).m_bFullQueryMatched = true
    rw [h0]
    exact h keywords tokens n
  · show ((KeywordMatcher.mk keywords (min MAX_TOKENS 0) none).Score tokens
      n).m_bFullQueryMatched = true
    rw [h0]
    exact h keywords tokens n

/-! ### Earlier unmatched tokens rank lower -/

theorem mask_lt_of_first_difference (p q j : Nat) (hp : p < 4294967296) (hq : q < 4294967296)
    (hj : j < 32) (hsame : ∀ x, x < j → p.testBit (31 - x) = q.testBit (31 - x))
    (hjp : p.testBit (31 - j) = false) (hjq : q.testBit (31 - j) = true) : p < q := by
  apply Nat.lt_of_testBit (31 - j) hjp hjq
  intro b hb
  by_cases hb32 : b < 32
  · have := hsame (31 - b) (by omega)
    rwa [show 31 - (31 - b) = b by omega] at this
  · have h32 : (2 : Nat) ^ 32 ≤ 2 ^ b := Nat.pow_le_pow_right (by norm_num) (by omega)
    have e : (2 : Nat) ^ 32 = 4294967296 := by norm_num
    rw [Nat.testBit_lt_two_pow (by omega), Nat.testBit_lt_two_pow (by omega)]

theorem Score_unmatched_first_value (MAX_TOKENS : Nat) (m0 : KeywordMatcher) (k x : StringT)
    (hxk : x ≠ k) (hM : 1 ≤ MAX_TOKENS) :
    (KeywordMatcher.SetKeywords MAX_TOKENS m0 [k] 1 none).Score [x, k] 2 =
      { m_sumTokenMatchDistance := 1, m_nameTokensMatched := 2147483647,
        m_numQueryTokensAndPrefixMatched := 2, m_bFullQueryMatched := true,
        m_bPrefixMatched := true } := by
  have hkx : k ≠ x := Ne.symm hxk
  rw [SetKeywords_none, Nat.min_eq_right hM]
  simp [KeywordMatcher.Score, keywordLoop, keywordInner, prefixBlock, countMatched, maskLoop,
    MatchState.onKeywordMatch, hxk, hkx, toUInt32, addDistance, absInt32]
  decide

theorem Score_unmatched_second_value (MAX_TOKENS : Nat) (m0 : KeywordMatcher) (k x : StringT)
    (hM : 1 ≤ MAX_TOKENS) :
    (KeywordMatcher.SetKeywords MAX_TOKENS m0 [k] 1 none).Score [k, x] 2 =
      { m_sumTokenMatchDistance := 0, m_nameTokensMatched := 3221225471,
        m_numQueryTokensAndPrefixMatched := 2, m_bFullQueryMatched := true,
        m_bPrefixMatched := true } := by
  rw [SetKeywords_none, Nat.min_eq_right hM]
  simp [KeywordMatcher.Score, keywordLoop, keywordInner, prefixBlock, countMatched, maskLoop,
    MatchState.onKeywordMatch, toUInt32, addDistance, absInt32]
  decide

/-- C14: earlier unmatched tokens rank lower.  For two scores (masks being 32-bit
values) with equal `fullQueryMatched`, `queryTokensAndPrefixMatched` and
`prefixMatched`, if at the smallest name-token position `j < 32` where the
masks differ bit `31 - j` is clear in `a` and set in `b`, then `a < b` whatever
the two distances are.  In particular, with keywords `[k]`, no prefix and
`x ≠ k`, the score of `[x, k]` is smaller than the score of `[k, x]`. -/
theorem ScoreT_lt_earlier_unmatched_ranks_lower :
    (∀ (a b : ScoreT) (j : Nat), a.m_nameTokensMatched < 4294967296 →
      b.m_nameTokensMatched < 4294967296 →
      a.m_bFullQueryMatched = b.m_bFullQueryMatched →
      a.m_numQueryTokensAndPrefixMatched = b.m_numQueryTokensAndPrefixMatched →
      a.m_bPrefixMatched = b.m_bPrefixMatched → j < 32 →
      (∀ x, x < j →
        a.m_nameTokensMatched.testBit (31 - x) = b.m_nameTokensMatched.testBit (31 - x)) →
      a.m_nameTokensMatched.testBit (31 - j) = false →
      b.m_nameTokensMatched.testBit (31 - j) = true →
      a.lt b = true) ∧
    (∀ (MAX_TOKENS : Nat) (m0 : KeywordMatcher) (k x : StringT), x ≠ k → 1 ≤ MAX_TOKENS →
      ((KeywordMatcher.SetKeywords MAX_TOKENS m0 [k] 1 none).Score [x, k] 2).lt
        ((KeywordMatcher.SetKeywords MAX_TOKENS m0 [k] 1 none).Score [k, x] 2) = true) := by
  constructor
  · intro a b j ha hb h1 h2 h3 hj hsame hja hjb
    have hlt := mask_lt_of_first_difference _ _ j ha hb hj hsame hja hjb
    rw [lt_iff_lexLt]
    unfold ScoreT.lexLt
    exact Or.inr ⟨h1, Or.inr ⟨h2, Or.inr ⟨h3, Or.inl hlt⟩⟩⟩
  · intro MAX_TOKENS m0 k x hxk hM
    rw [Score_unmatched_first_value MAX_TOKENS m0 k x hxk hM,
      Score_unmatched_second_value MAX_TOKENS m0 k x hM]
    decide

/-- C14 at two scores that differ first at position `0`, the larger distance on
the side that wins, and at `k = "park"`, `x = "central"`. -/
theorem ScoreT_lt_earlier_unmatched_ranks_lower_witness :
    (ScoreT.mk 0 2147483647 2 true true).lt (ScoreT.mk 7 3221225471 2 true true) = true ∧
    ((KeywordMatcher.SetKeywords 32 KeywordMatcher.init [tokPark] 1 none).Score
        [tokCentral, tokPark] 2).lt
      ((KeywordMatcher.SetKeywords 32 KeywordMatcher.init [tokPark] 1 none).Score
        [tokPark, tokCentral] 2) = true :=
  ⟨ScoreT_lt_earlier_unmatched_ranks_lower.1 (ScoreT.mk 0 2147483647 2 true true)
      (ScoreT.mk 7 3221225471 2 true true) 0 (by decide) (by decide) rfl rfl rfl (by decide)
      (fun x hx => absurd hx (Nat.not_lt_zero x)) (by decide) (by decide),
    ScoreT_lt_earlier_unmatched_ranks_lower.2 32 KeywordMatcher.init tokPark tokCentral
      (by decide) (by decide)⟩

/-! ### The prefix matches only a token that no keyword consumed -/

theorem Score_eq_of_stateAfterPrefix (m : KeywordMatcher) (tokens : List StringT) (count : Nat) :
    m.Score tokens count =
      { m_bFullQueryMatched :=
          (stateAfterPrefix m tokens count).bPrefixMatched &&
            (countMatched (stateAfterPrefix m tokens count).isQueryTokenMatched 0 ==
              (stateAfterPrefix m tokens count).isQueryTokenMatched.length)
        m_bPrefixMatched := (stateAfterPrefix m tokens count).bPrefixMatched
        m_numQueryTokensAndPrefixMatched :=
          countMatched (stateAfterPrefix m tokens count).isQueryTokenMatched 0 +
            (if (stateAfterPrefix m tokens count).bPrefixMatched then 1 else 0)
        m_nameTokensMatched :=
          maskLoop (stateAfterPrefix m tokens count).isNameTokenMatched
            (min 32 (stateAfterPrefix m tokens count).isNameTokenMatched.length) 0 4294967295
        m_sumTokenMatchDistance := (stateAfterPrefix m tokens count).sumTokenMatchDistance } :=
  rfl

/-- The state after the prefix block, by cases on the search for a free token
that starts with the prefix. -/
theorem stateAfterPrefix_some (m : KeywordMatcher) (p : StringT) (tokens : List StringT)
    (count : Nat) (hp : m.m_prefix = some p) :
    stateAfterPrefix m tokens count =
      match firstHit (fun t => StartsWith t p) tokens
          (stateAfterKeywords m tokens count).isNameTokenMatched count 0 with
      | none => { stateAfterKeywords m tokens count with bPrefixMatched := false }
      | some j0 =>
        MatchState.onPrefixMatch { stateAfterKeywords m tokens count with bPrefixMatched := false }
          m.m_keywordsCount j0 := by
  unfold stateAfterPrefix prefixBlock
  rw [hp]
  simp only
  rw [prefixLoop_eq m p tokens count 0 _ rfl]

theorem stateAfterPrefix_none (m : KeywordMatcher) (tokens : List StringT)
    (count : Nat) (hp : m.m_prefix = none) :
    stateAfterPrefix m tokens count = stateAfterKeywords m tokens count := by
  unfold stateAfterPrefix prefixBlock
  rw [hp]

theorem Score_prefix_scenario (MAX_TOKENS : Nat) (m0 : KeywordMatcher) (k p : StringT)
    (hne : p ≠ []) (hM : 1 ≤ MAX_TOKENS) :
    (KeywordMatcher.SetKeywords MAX_TOKENS m0 [k] 1 (some p)).Score [k] 1 =
      { m_sumTokenMatchDistance := 0, m_nameTokensMatched := 4294967295,
        m_numQueryTokensAndPrefixMatched := 1, m_bFullQueryMatched := false,
        m_bPrefixMatched := false } := by
  cases p with
  | nil => exact absurd rfl hne
  | cons c ps =>
    simp [KeywordMatcher.SetKeywords, Nat.min_eq_right hM, KeywordMatcher.Score, keywordLoop,
      keywordInner, prefixBlock, prefixLoop, countMatched, maskLoop, MatchState.onKeywordMatch,
      toUInt32, addDistance, absInt32]

/-- C16: the prefix only matches a token no keyword consumed.  For every
configuration with a prefix `p`, `prefixMatched` is true iff some name token
whose flag is still clear after the keyword loops starts with `p`, and
`prefixMatched = false` forces `fullQueryMatched = false`.  In particular, with
keywords `[k]`, a non-empty prefix `p` (also when `k` starts with `p`) and name
tokens `[k]`, the keyword is matched, `prefixMatched = false`,
`fullQueryMatched = false` and `queryTokensAndPrefixMatched = 1`. -/
theorem Score_prefix_needs_unconsumed_token :
    (∀ (m : KeywordMatcher) (p : StringT) (tokens : List StringT) (count : Nat),
      m.m_prefix = some p →
      (((m.Score tokens count).m_bPrefixMatched = true ↔
          ∃ j, j < count ∧
            (stateAfterKeywords m tokens count).isNameTokenMatched.getD j false = false ∧
            StartsWith (tokens.getD j []) p = true) ∧
        ((m.Score tokens count).m_bPrefixMatched = false →
          (m.Score tokens count).m_bFullQueryMatched = false))) ∧
    (∀ (MAX_TOKENS : Nat) (m0 : KeywordMatcher) (k p : StringT), p ≠ [] →
      StartsWith k p = true → 1 ≤ MAX_TOKENS →
      ((KeywordMatcher.SetKeywords MAX_TOKENS m0 [k] 1 (some p)).Score [k] 1).m_bPrefixMatched
          = false ∧
        ((KeywordMatcher.SetKeywords MAX_TOKENS m0 [k] 1 (some p)).Score [k]
          1).m_bFullQueryMatched = false ∧
        ((KeywordMatcher.SetKeywords MAX_TOKENS m0 [k] 1 (some p)).Score [k]
          1).m_numQueryTokensAndPrefixMatched = 1 ∧
        ((KeywordMatcher.SetKeywords MAX_TOKENS m0 [k] 1 (some p)).Score [k]
          1).m_nameTokensMatched = 4294967295) := by
  constructor
  · intro m p tokens count hp
    constructor
    · rw [Score_eq_of_stateAfterPrefix, stateAfterPrefix_some m p tokens count hp]
      cases hr : firstHit (fun t => StartsWith t p) tokens
          (stateAfterKeywords m tokens count).isNameTokenMatched count 0 with
      | none =>
        constructor
        · intro h
          exact absurd h (by simp)
        · rintro ⟨j, hj, h1, h2⟩
          exact absurd ⟨h1, h2⟩ (firstHit_none _ tokens _ count 0 hr j (Nat.zero_le _) (by omega))
      | some j0 =>
        obtain ⟨_, a2, a3, a4, _⟩ := firstHit_some _ tokens _ count 0 j0 hr
        constructor
        · intro _
          exact ⟨j0, by omega, a3, a4⟩
        · intro _
          rfl
    · intro h
      rw [Score_eq_of_stateAfterPrefix] at h ⊢
      simp only at h ⊢
      rw [h]
      rfl
  · intro MAX_TOKENS m0 k p hne _ hM
    rw [Score_prefix_scenario MAX_TOKENS m0 k p hne hM]
    exact ⟨rfl, rfl, rfl, rfl⟩

/-- C16 at keywords `["central"]`, prefix `"cent"`, name tokens `["central"]`. -/
theorem Score_prefix_needs_unconsumed_token_witness :
    tokCent ≠ [] ∧ StartsWith tokCentral tokCent = true ∧
    ((KeywordMatcher.SetKeywords 32 KeywordMatcher.init [tokCentral] 1 (some tokCent)).Score
        [tokCentral] 1).m_bPrefixMatched = false ∧
    ((KeywordMatcher.SetKeywords 32 KeywordMatcher.init [tokCentral] 1 (some tokCent)).Score
        [tokCentral] 1).m_bFullQueryMatched = false :=
  ⟨by decide, by decide,
    (Score_prefix_needs_unconsumed_token.2 32 KeywordMatcher.init tokCentral tokCent (by decide)
      (by decide) (by decide)).1,
    (Score_prefix_needs_unconsumed_token.1
      (KeywordMatcher.SetKeywords 32 KeywordMatcher.init [tokCentral] 1 (some tokCent)) tokCent
      [tokCentral] 1 rfl).2 (by decide)⟩

/-! ### First-fit matches as many keywords as any assignment -/

theorem length_diff_eq (T K : List StringT) :
    T.length - (T.diff K).length =
      Multiset.card ((K : Multiset StringT) ∩ (T : Multiset StringT)) := by
  have h1 : ((T.diff K : List StringT) : Multiset StringT) =
      (T : Multiset StringT) - (K : Multiset StringT) := by
    rw [Multiset.coe_sub, ← beq_instance_eq]
  have h2 : (T.diff K).length =
      Multiset.card ((T : Multiset StringT) - (K : Multiset StringT)) := by
    rw [← h1, Multiset.coe_card]
  have h3 : Multiset.card ((T : Multiset StringT) - (K : Multiset StringT)) =
      T.length - Multiset.card ((T : Multiset StringT) ∩ (K : Multiset StringT)) := by
    rw [← Multiset.sub_inter, Multiset.card_sub (Multiset.inter_le_left _ _), Multiset.coe_card]
  have h4 : Multiset.card ((T : Multiset StringT) ∩ (K : Multiset StringT)) ≤ T.length := by
    have := Multiset.card_le_card (Multiset.inter_le_left (T : Multiset StringT) K)
    rwa [Multiset.coe_card] at this
  rw [Multiset.inter_comm] at h3 h4
  rw [h2, h3]
  omega

theorem card_inter_eq_sum (K T : List StringT) :
    Multiset.card ((K : Multiset StringT) ∩ (T : Multiset StringT)) =
      ∑ v in K.toFinset, min (K.count v) (T.count v) := by
  rw [← Multiset.toFinset_sum_count_eq]
  have hsub : ((K : Multiset StringT) ∩ (T : Multiset StringT)).toFinset ⊆ K.toFinset := by
    intro v hv
    rw [Multiset.mem_toFinset] at hv
    rw [List.mem_toFinset]
    exact Multiset.mem_coe.1 (Multiset.mem_of_le (Multiset.inter_le_left _ _) hv)
  rw [Finset.sum_subset hsub]
  · apply Finset.sum_congr rfl
    intro v _
    rw [Multiset.count_inter, Multiset.coe_count, Multiset.coe_count, ← beq_instance_eq]
  · intro v _ hv
    rw [Multiset.mem_toFinset] at hv
    exact Multiset.count_eq_zero_of_not_mem hv

/-- C17: first-fit reaches the maximum number of keyword matches.  The number of
matched keywords (`queryTokensAndPrefixMatched` less the `1` counted when
`prefixMatched` is true) is the size of the multiset intersection of the
keywords in use and the name tokens, that is the sum over token values `v` of
the smaller of the two occurrence counts of `v`; hence with no prefix
configured `fullQueryMatched` holds iff the keyword multiset is contained in
the name-token multiset. -/
theorem Score_matches_multiset_intersection (m : KeywordMatcher) (tokens : List StringT)
    (count : Nat) (hk : m.m_keywordsCount ≤ m.m_keywords.length) (hc : count ≤ tokens.length) :
    (m.Score tokens count).m_numQueryTokensAndPrefixMatched =
        Multiset.card (((m.m_keywords.take m.m_keywordsCount : List StringT) : Multiset StringT) ∩
          ((tokens.take count : List StringT) : Multiset StringT)) +
          (if (m.Score tokens count).m_bPrefixMatched then 1 else 0) ∧
      Multiset.card (((m.m_keywords.take m.m_keywordsCount : List StringT) : Multiset StringT) ∩
          ((tokens.take count : List StringT) : Multiset StringT)) =
        ∑ v in (m.m_keywords.take m.m_keywordsCount).toFinset,
          min ((m.m_keywords.take m.m_keywordsCount).count v) ((tokens.take count).count v) ∧
      (m.m_prefix = none →
        ((m.Score tokens count).m_bFullQueryMatched = true ↔
          ((m.m_keywords.take m.m_keywordsCount : List StringT) : Multiset StringT) ≤
            ((tokens.take count : List StringT) : Multiset StringT))) := by
  obtain ⟨h1, h2, h3⟩ := Score_fields m tokens count hk hc
  have hlen : (tokens.take count).length = count := by
    rw [List.length_take]
    omega
  have hq : (m.m_keywords.take m.m_keywordsCount).length = m.m_keywordsCount := by
    rw [List.length_take]
    omega
  have hm : count - (unmatchedTokens m tokens count).length =
      Multiset.card (((m.m_keywords.take m.m_keywordsCount : List StringT) : Multiset StringT) ∩
        ((tokens.take count : List StringT) : Multiset StringT)) := by
    have := length_diff_eq (tokens.take count) (m.m_keywords.take m.m_keywordsCount)
    rw [hlen] at this
    exact this
  refine ⟨?_, card_inter_eq_sum _ _, ?_⟩
  · rw [h2, hm]
  · intro hp
    rw [hp] at h1
    simp only at h1
    rw [h3, h1, hm, Bool.true_and, beq_iff_eq]
    constructor
    · intro hcard
      have hle := Multiset.inter_le_left
        ((m.m_keywords.take m.m_keywordsCount : List StringT) : Multiset StringT)
        ((tokens.take count : List StringT) : Multiset StringT)
      have heq := Multiset.eq_of_le_of_card_le hle (by rw [hcard, Multiset.coe_card, hq])
      rw [← heq]
      exact Multiset.inter_le_right _ _
    · intro hle
      have heq : ((m.m_keywords.take m.m_keywordsCount : List StringT) : Multiset StringT) ∩
          ((tokens.take count : List StringT) : Multiset StringT) =
          ((m.m_keywords.take m.m_keywordsCount : List StringT) : Multiset StringT) :=
        le_antisymm (Multiset.inter_le_left _ _) (Multiset.le_inter (le_refl _) hle)
      rw [heq, Multiset.coe_card, hq]

/-- C17 at keywords `["park", "park", "cent"]` and name tokens
`["park", "central", "park"]`: two of the three keywords are matched. -/
theorem Score_matches_multiset_intersection_witness :
    (KeywordMatcher.mk [tokPark, tokPark, tokCent] 3 none).m_keywordsCount ≤
      (KeywordMatcher.mk [tokPark, tokPark, tokCent] 3 none).m_keywords.length ∧
    3 ≤ [tokPark, tokCentral, tokPark].length ∧
    ((KeywordMatcher.mk [tokPark, tokPark, tokCent] 3 none).Score
        [tokPark, tokCentral, tokPark] 3).m_numQueryTokensAndPrefixMatched = 3 ∧
    ((KeywordMatcher.mk [tokPark, tokPark, tokCent] 3 none).Score
        [tokPark, tokCentral, tokPark] 3).m_numQueryTokensAndPrefixMatched =
      Multiset.card ((([tokPark, tokPark, tokCent].take 3 : List StringT) : Multiset StringT) ∩
        (([tokPark, tokCentral, tokPark].take 3 : List StringT) : Multiset StringT)) +
        (if ((KeywordMatcher.mk [tokPark, tokPark, tokCent] 3 none).Score
          [tokPark, tokCentral, tokPark] 3).m_bPrefixMatched then 1 else 0) :=
  ⟨by decide, by decide, by decide,
    (Score_matches_multiset_intersection (KeywordMatcher.mk [tokPark, tokPark, tokCent] 3 none)
      [tokPark, tokCentral, tokPark] 3 (by decide) (by decide)).1⟩

/-! ### Every match consumes a name token of its own -/

theorem freeTokens_length :
    ∀ (tokens : List StringT) (flags : List Bool), flags.length ≤ tokens.length →
      (freeTokens tokens flags).length = flags.count false := by
  intro tokens
  induction tokens with
  | nil =>
    intro flags h
    cases flags with
    | nil => rfl
    | cons b fs => simp at h
  | cons a ts ih =>
    intro flags h
    cases flags with
    | nil => simp [freeTokens]
    | cons b fs =>
      have h2 : fs.length ≤ ts.length := by simpa using h
      cases b
      · simp [freeTokens, ih fs h2]
      · simp [freeTokens, ih fs h2]

theorem count_false_set :
    ∀ (l : List Bool) (i : Nat), l.getD i false = false → i < l.length →
      (l.set i true).count false + 1 = l.count false := by
  intro l
  induction l with
  | nil => intro i _ h; simp at h
  | cons b bs ih =>
    intro i h1 h2
    cases i with
    | zero =>
      have hb : b = false := by simpa using h1
      subst hb
      simp
    | succ y =>
      have := ih y (by simpa using h1) (by simpa using h2)
      cases b
      · simp [List.count_cons]
        omega
      · simp [List.count_cons]
        omega

theorem countP_range_flags :
    ∀ (flags : List Bool) (n : Nat), flags.length ≤ n →
      (List.range n).countP (fun j => decide (j < flags.length) && !flags.getD j false) =
        flags.count false := by
  intro flags
  induction flags with
  | nil =>
    intro n _
    simp
  | cons b fs ih =>
    intro n h
    cases n with
    | zero => simp at h
    | succ k =>
      have hk : fs.length ≤ k := by simpa using h
      rw [List.range_succ_eq_map, List.countP_cons, List.countP_map]
      have hfun : ((fun j => decide (j < (b :: fs).length) && !(b :: fs).getD j false) ∘ Nat.succ) =
          (fun j => decide (j < fs.length) && !fs.getD j false) := by
        funext j
        simp
      rw [hfun, ih k hk]
      cases b <;> simp [List.count_cons]

theorem zeroBits_maskLoop (flags : List Bool) (h : flags.length ≤ 32) :
    zeroBits (maskLoop flags (min 32 flags.length) 0 4294967295) = flags.count false := by
  have hrev : (List.range 32).map (fun b => 31 - b) = (List.range 32).reverse := by decide
  have hpred : ∀ b, b ∈ List.range 32 →
      (!(maskLoop flags (min 32 flags.length) 0 4294967295).testBit b) =
        ((fun j => decide (j < flags.length) && !flags.getD j false) ∘ (fun b => 31 - b)) b := by
    intro b hb
    have hb32 : b < 32 := List.mem_range.1 hb
    have hbit := maskLoop_testBit flags (min 32 flags.length) 0 4294967295 (31 - b) (by omega)
      (by omega)
    rw [show 31 - (31 - b) = b by omega] at hbit
    have hfull : (4294967295 : Nat).testBit b = true := by
      have := Nat.testBit_two_pow_sub_one 32 b
      simp only [show (2 : Nat) ^ 32 - 1 = 4294967295 by norm_num] at this
      rw [this]
      simpa using hb32
    rw [hbit, hfull]
    have hiff : (0 ≤ 31 - b ∧ 31 - b < 0 + min 32 flags.length) ↔ 31 - b < flags.length := by
      omega
    simp only [Function.comp, Bool.true_and, Bool.not_not, decide_eq_decide.2 hiff]
  unfold zeroBits
  rw [← List.countP_eq_length_filter, List.countP_congr (fun b hb => by rw [hpred b hb]),
    ← List.countP_map, hrev, List.countP_reverse, countP_range_flags flags 32 h]

/-- C18: every match consumes its own name token.  For a name of `N ≤ 32`
tokens, the number of zero bits of the mask is `N` minus the number of matches
(matched keywords, plus one if a prefix is configured and matched), which is
`N - queryTokensAndPrefixMatched`, plus one if no prefix is configured;
consequently `fullQueryMatched = true` implies that `N` is at least the number
of keywords in use, plus one if a prefix is configured. -/
theorem Score_zero_bits_count (m : KeywordMatcher) (tokens : List StringT) (count : Nat)
    (hc : count ≤ tokens.length) (hN : count ≤ 32) :
    zeroBits (m.Score tokens count).m_nameTokensMatched +
        (((m.Score tokens count).m_numQueryTokensAndPrefixMatched -
            (if (m.Score tokens count).m_bPrefixMatched then 1 else 0)) +
          (if m.m_prefix.isSome && (m.Score tokens count).m_bPrefixMatched then 1 else 0)) =
        count ∧
      zeroBits (m.Score tokens count).m_nameTokensMatched +
          (m.Score tokens count).m_numQueryTokensAndPrefixMatched =
        count + (if m.m_prefix.isSome then 0 else 1) ∧
      ((m.Score tokens count).m_bFullQueryMatched = true →
        m.m_keywordsCount + (if m.m_prefix.isSome then 1 else 0) ≤ count) := by
  have hinit : ∀ x, 0 ≤ x → (List.replicate m.m_keywordsCount false).getD x false = false := by
    intro x _
    by_cases hx : x < m.m_keywordsCount <;>
      simp [List.getD_eq_getElem?_getD, hx, List.getElem?_replicate]
  obtain ⟨c1, c2, _, c4, _⟩ := keywordLoop_spec m tokens count hc m.m_keywordsCount 0
    { isQueryTokenMatched := List.replicate m.m_keywordsCount false
      isNameTokenMatched := List.replicate count false
      sumTokenMatchDistance := 0
      prevTokenMatchDistance := 0
      bPrefixMatched := true } (by simp) hinit (by simp)
  change (stateAfterKeywords m tokens count).isQueryTokenMatched.length = _ at c1
  change (stateAfterKeywords m tokens count).isNameTokenMatched.length = _ at c2
  change (stateAfterKeywords m tokens count).isQueryTokenMatched.count true +
    (freeTokens tokens (stateAfterKeywords m tokens count).isNameTokenMatched).length = _ at c4
  simp only [List.length_replicate] at c1
  rw [freeTokens_length tokens _ (by omega)] at c4
  simp only [freeTokens_replicate_false, List.count_replicate, List.length_take] at c4
  have c4b : (stateAfterKeywords m tokens count).isQueryTokenMatched.count true +
      (stateAfterKeywords m tokens count).isNameTokenMatched.count false = count := by
    simp at c4
    omega
  rw [Score_eq_of_stateAfterPrefix]
  simp only
  cases hp : m.m_prefix with
  | none =>
    have hst := stateAfterPrefix_none m tokens count hp
    have hpm : (stateAfterKeywords m tokens count).bPrefixMatched = true := by
      have := (keywordLoop_spec m tokens count hc m.m_keywordsCount 0
        { isQueryTokenMatched := List.replicate m.m_keywordsCount false
          isNameTokenMatched := List.replicate count false
          sumTokenMatchDistance := 0
          prevTokenMatchDistance := 0
          bPrefixMatched := true } (by simp) hinit (by simp)).2.2.2.2
      exact this
    rw [hst, zeroBits_maskLoop _ (by omega), countMatched_eq, hpm, c1]
    simp only [Option.isSome_none, Bool.false_and, if_true, Bool.false_eq_true, if_false,
      Bool.true_and, beq_iff_eq, ↓reduceIte]
    refine ⟨by omega, by omega, ?_⟩
    intro h
    have hle := List.count_le_length true (stateAfterKeywords m tokens count).isQueryTokenMatched
    omega
  | some p =>
    have hst := stateAfterPrefix_some m p tokens count hp
    cases hr : firstHit (fun t => StartsWith t p) tokens
        (stateAfterKeywords m tokens count).isNameTokenMatched count 0 with
    | none =>
      rw [hr] at hst
      simp only at hst
      rw [hst]
      simp only [Option.isSome_some, Bool.true_and, Bool.false_eq_true, if_false, Bool.false_and,
        ↓reduceIte]
      rw [zeroBits_maskLoop _ (by omega), countMatched_eq]
      refine ⟨by omega, by omega, ?_⟩
      intro h
      exact absurd h (by simp)
    | some j0 =>
      obtain ⟨_, a2, a3, _, _⟩ := firstHit_some _ tokens _ count 0 j0 hr
      rw [hr] at hst
      simp only at hst
      rw [hst]
      simp only [MatchState.onPrefixMatch, Option.isSome_some, Bool.true_and, if_true,
        beq_iff_eq, ↓reduceIte]
      have hset := count_false_set (stateAfterKeywords m tokens count).isNameTokenMatched j0 a3
        (by omega)
      rw [zeroBits_maskLoop _ (by simp; omega), countMatched_eq, c1]
      refine ⟨by omega, by omega, ?_⟩
      intro h
      have hle := List.count_le_length true (stateAfterKeywords m tokens count).isQueryTokenMatched
      omega

/-- C18 at keywords `["park"]`, prefix `"cent"` and name tokens
`["central", "park", "park"]`: one zero bit, three tokens, two matches. -/
theorem Score_zero_bits_count_witness :
    3 ≤ [tokCentral, tokPark, tokPark].length ∧ 3 ≤ 32 ∧
    zeroBits ((KeywordMatcher.mk [tokPark] 1 (some tokCent)).Score
      [tokCentral, tokPark, tokPark] 3).m_nameTokensMatched = 1 ∧
    zeroBits ((KeywordMatcher.mk [tokPark] 1 (some tokCent)).Score
        [tokCentral, tokPark, tokPark] 3).m_nameTokensMatched +
        ((KeywordMatcher.mk [tokPark] 1 (some tokCent)).Score
          [tokCentral, tokPark, tokPark] 3).m_numQueryTokensAndPrefixMatched =
      3 + (if Option.isSome (KeywordMatcher.m_prefix (KeywordMatcher.mk [tokPark] 1 (some tokCent)))
        then 0 else 1) :=
  ⟨by decide, by decide, by decide,
    (Score_zero_bits_count (KeywordMatcher.mk [tokPark] 1 (some tokCent))
      [tokCentral, tokPark, tokPark] 3 (by decide) (by decide)).2.1⟩

/-! ### The distance: the code's run and the sum over the integers -/

theorem keywordLoop_trace (m : KeywordMatcher) (tokens : List StringT) (count : Nat) :
    ∀ (left i : Nat) (st : MatchState), i + left = st.isQueryTokenMatched.length →
      (∀ x, i ≤ x → st.isQueryTokenMatched.getD x false = false) →
      (keywordLoop m tokens count left i st).sumTokenMatchDistance =
          uint32Run st.sumTokenMatchDistance st.prevTokenMatchDistance
            (offsets (matchPairs m tokens count left i st.isNameTokenMatched)) ∧
        (keywordLoop m tokens count left i st).prevTokenMatchDistance =
          uint32Prev st.prevTokenMatchDistance
            (offsets (matchPairs m tokens count left i st.isNameTokenMatched)) ∧
        (keywordLoop m tokens count left i st).isNameTokenMatched =
          markConsumed st.isNameTokenMatched
            (matchPairs m tokens count left i st.isNameTokenMatched) ∧
        (keywordLoop m tokens count left i st).bPrefixMatched = st.bPrefixMatched := by
  intro left
  induction left with
  | zero => intro i st _ _; exact ⟨rfl, rfl, rfl, rfl⟩
  | succ n ih =>
    intro i st hlen hfree
    have hstep := keywordInner_eq m tokens i count 0 st (hfree i (le_refl _)) (by omega)
    simp only [keywordLoop, matchPairs]
    cases hr : firstHit (fun t => m.m_keywords.getD i [] == t) tokens st.isNameTokenMatched
        count 0 with
    | none =>
      rw [hr] at hstep
      simp only at hstep
      rw [hstep]
      exact ih (i + 1) st (by omega) (fun x hx => hfree x (by omega))
    | some j =>
      rw [hr] at hstep
      simp only at hstep
      rw [hstep]
      have h := ih (i + 1) (st.onKeywordMatch i j)
        (by simp [MatchState.onKeywordMatch]; omega)
        (fun x hx => by
          show (st.isQueryTokenMatched.set i true).getD x false = false
          rw [getD_set_other _ _ _ (by omega)]
          exact hfree x (by omega))
      exact h

theorem uint32Run_append (s p : Nat) (ds : List Int) (d : Int) :
    uint32Run s p (ds ++ [d]) =
      addDistance (uint32Run s p ds) (toUInt32 d) (uint32Prev p ds) := by
  induction ds generalizing s p with
  | nil => rfl
  | cons a rest ih =>
    show uint32Run (addDistance s (toUInt32 a) p) (toUInt32 a) (rest ++ [d]) = _
    rw [ih]
    rfl

/-- The distance computed by `Score` is the run of the two `uint32_t` statements
over the offsets of its matches. -/
theorem Score_distance_eq_uint32Run (m : KeywordMatcher) (tokens : List StringT) (count : Nat) :
    (m.Score tokens count).m_sumTokenMatchDistance =
      uint32Run 0 0 (matchOffsets m tokens count) := by
  have hinit : ∀ x, 0 ≤ x → (List.replicate m.m_keywordsCount false).getD x false = false := by
    intro x _
    by_cases hx : x < m.m_keywordsCount <;>
      simp [List.getD_eq_getElem?_getD, hx, List.getElem?_replicate]
  obtain ⟨t1, t2, t3, _⟩ := keywordLoop_trace m tokens count m.m_keywordsCount 0
    { isQueryTokenMatched := List.replicate m.m_keywordsCount false
      isNameTokenMatched := List.replicate count false
      sumTokenMatchDistance := 0
      prevTokenMatchDistance := 0
      bPrefixMatched := true } (by simp) hinit
  change (stateAfterKeywords m tokens count).sumTokenMatchDistance =
    uint32Run 0 0 (offsets (keywordMatches m tokens count)) at t1
  change (stateAfterKeywords m tokens count).prevTokenMatchDistance =
    uint32Prev 0 (offsets (keywordMatches m tokens count)) at t2
  change (stateAfterKeywords m tokens count).isNameTokenMatched =
    markConsumed (List.replicate count false) (keywordMatches m tokens count) at t3
  rw [Score_eq_of_stateAfterPrefix]
  simp only
  unfold matchOffsets prefixMatch
  cases hp : m.m_prefix with
  | none =>
    rw [stateAfterPrefix_none m tokens count hp, t1]
    simp
  | some p =>
    rw [stateAfterPrefix_some m p tokens count hp, t3]
    simp only
    cases hr : firstHit (fun t => StartsWith t p) tokens
        (markConsumed (List.replicate count false) (keywordMatches m tokens count)) count 0 with
    | none =>
      simp only [List.append_nil]
      exact t1
    | some jp =>
      simp only [MatchState.onPrefixMatch]
      rw [uint32Run_append, t1, t2]

theorem addDistance_exact (s : Nat) (d p : Int) (hd1 : -32 ≤ d) (hd2 : d ≤ 32) (hp1 : -32 ≤ p)
    (hp2 : p ≤ 32) (hs : s + 64 < 4294967296) :
    ((addDistance s (toUInt32 d) (toUInt32 p) : Nat) : Int) = (s : Int) + |d - p| := by
  unfold addDistance absInt32 toUInt32
  rcases abs_cases (d - p) with ⟨h1, h2⟩ | ⟨h1, h2⟩ <;> rw [h1] <;> split <;> omega

theorem uint32Run_exact :
    ∀ (ds : List Int) (s : Nat) (p : Int), (∀ d ∈ ds, -32 ≤ d ∧ d ≤ 32) → -32 ≤ p → p ≤ 32 →
      s + 64 * ds.length < 4294967296 →
      ((uint32Run s (toUInt32 p) ds : Nat) : Int) = (s : Int) + deltaSum p ds := by
  intro ds
  induction ds with
  | nil => intro s p _ _ _ _; simp [uint32Run, deltaSum]
  | cons d rest ih =>
    intro s p hb hp1 hp2 hs
    have hd := hb d (List.mem_cons_self _ _)
    have hlen : (d :: rest).length = rest.length + 1 := rfl
    rw [hlen] at hs
    have hstep := addDistance_exact s d p hd.1 hd.2 hp1 hp2 (by omega)
    have habs : |d - p| ≤ 64 := by
      rcases abs_cases (d - p) with ⟨h1, _⟩ | ⟨h1, _⟩ <;> rw [h1] <;> omega
    have hnn : 0 ≤ |d - p| := abs_nonneg _
    simp only [uint32Run, deltaSum]
    rw [ih (addDistance s (toUInt32 d) (toUInt32 p)) d
      (fun x hx => hb x (List.mem_cons_of_mem _ hx)) hd.1 hd.2 (by omega), hstep]
    ring

theorem toUInt32_zero : toUInt32 0 = 0 := by decide

theorem matchPairs_bounds (m : KeywordMatcher) (tokens : List StringT) (count : Nat) :
    ∀ (left i : Nat) (flags : List Bool),
      (matchPairs m tokens count left i flags).length ≤ left ∧
        ∀ ij ∈ matchPairs m tokens count left i flags,
          i ≤ ij.1 ∧ ij.1 < i + left ∧ ij.2 < count ∧
            m.m_keywords.getD ij.1 [] = tokens.getD ij.2 [] := by
  intro left
  induction left with
  | zero => intro i flags; simp [matchPairs]
  | succ n ih =>
    intro i flags
    simp only [matchPairs]
    cases hr : firstHit (fun t => m.m_keywords.getD i [] == t) tokens flags count 0 with
    | none =>
      obtain ⟨h1, h2⟩ := ih (i + 1) flags
      refine ⟨by simpa using Nat.le_succ_of_le h1, ?_⟩
      intro ij hij
      obtain ⟨a, b, c, d⟩ := h2 ij hij
      exact ⟨by omega, by omega, c, d⟩
    | some j =>
      obtain ⟨_, a2, _, a4, _⟩ := firstHit_some _ tokens flags count 0 j hr
      obtain ⟨h1, h2⟩ := ih (i + 1) (flags.set j true)
      refine ⟨by simpa using h1, ?_⟩
      intro ij hij
      rcases List.mem_cons.1 hij with heq | hmem
      · subst heq
        exact ⟨le_refl _, by omega, by omega, beq_iff_eq.1 a4⟩
      · obtain ⟨a, b, c, d⟩ := h2 ij hmem
        exact ⟨by omega, by omega, c, d⟩

theorem matchOffsets_bounds (m : KeywordMatcher) (tokens : List StringT) (count : Nat)
    (hQ : m.m_keywordsCount ≤ 32) (hN : count ≤ 32) :
    (matchOffsets m tokens count).length ≤ 33 ∧
      ∀ d ∈ matchOffsets m tokens count, -32 < d ∧ d ≤ 32 := by
  obtain ⟨h1, h2⟩ := matchPairs_bounds m tokens count m.m_keywordsCount 0
    (List.replicate count false)
  have hk : ∀ d ∈ offsets (keywordMatches m tokens count), -32 < d ∧ d ≤ 32 := by
    intro d hd
    obtain ⟨ij, hij, rfl⟩ := List.mem_map.1 hd
    obtain ⟨_, b, c, _⟩ := h2 ij hij
    constructor <;> omega
  have hlen : (offsets (keywordMatches m tokens count)).length ≤ 32 := by
    unfold offsets keywordMatches
    rw [List.length_map]
    omega
  unfold matchOffsets
  cases hr : prefixMatch m tokens count with
  | none =>
    simp only [List.append_nil]
    exact ⟨by omega, hk⟩
  | some jp =>
    have hjp : jp < count := by
      unfold prefixMatch at hr
      cases hp : m.m_prefix with
      | none => rw [hp] at hr; cases hr
      | some p =>
        rw [hp] at hr
        have := (firstHit_some _ tokens _ count 0 jp hr).2.1
        omega
    refine ⟨by simp; omega, ?_⟩
    intro d hd
    rcases List.mem_append.1 hd with h | h
    · exact hk d h
    · have : d = (m.m_keywordsCount : Int) - (jp : Int) := by simpa using h
      subst this
      constructor <;> omega

theorem deltaSum_append (p : Int) (ds : List Int) (d : Int) :
    deltaSum p (ds ++ [d]) = deltaSum p ds + |d - lastOffset p ds| := by
  induction ds generalizing p with
  | nil => simp [deltaSum, lastOffset]
  | cons a rest ih =>
    show |a - p| + deltaSum a (rest ++ [d]) = |a - p| + deltaSum a rest + |d - lastOffset a rest|
    rw [ih]
    ring

theorem specDistance_eq_deltaSum (m : KeywordMatcher) (tokens : List StringT) (count : Nat) :
    specDistance m tokens count = deltaSum 0 (matchOffsets m tokens count) := by
  unfold specDistance matchOffsets
  cases prefixMatch m tokens count with
  | none => simp
  | some jp => simp only [deltaSum_append]

theorem uint32Run_matchOffsets (m : KeywordMatcher) (tokens : List StringT) (count : Nat)
    (hQ : m.m_keywordsCount ≤ 32) (hN : count ≤ 32) :
    ((uint32Run 0 0 (matchOffsets m tokens count) : Nat) : Int) =
      deltaSum 0 (matchOffsets m tokens count) := by
  obtain ⟨h1, h2⟩ := matchOffsets_bounds m tokens count hQ hN
  have h := uint32Run_exact (matchOffsets m tokens count) 0 0
    (fun d hd => ⟨le_of_lt (h2 d hd).1, (h2 d hd).2⟩) (by norm_num) (by norm_num) (by omega)
  rw [toUInt32_zero] at h
  simpa using h

/-- C15: the distance is the sum of offset deltas.  With at most 32 keywords in use
and at most 32 name tokens, `sumTokenMatchDistance` is the sum over the keyword
matches `(i_k, j_k)`, taken in increasing keyword index with `j_k` the first
position equal to keyword `i_k` that no earlier keyword consumed, of
`|d_k - d_(k-1)|` where `d_k = i_k - j_k` and `d_0 = 0`, plus the single term
`|(Q - j_p) - d_m|` when a prefix is configured and first matches the
unconsumed token at `j_p`; every listed match pairs a keyword in use with an
equal name token. -/
theorem Score_distance_is_sum_of_deltas (m : KeywordMatcher) (tokens : List StringT)
    (count : Nat) (hQ : m.m_keywordsCount ≤ 32) (hN : count ≤ 32) :
    (((m.Score tokens count).m_sumTokenMatchDistance : Nat) : Int) =
        specDistance m tokens count ∧
      ∀ ij ∈ keywordMatches m tokens count,
        ij.1 < m.m_keywordsCount ∧ ij.2 < count ∧
          m.m_keywords.getD ij.1 [] = tokens.getD ij.2 [] := by
  constructor
  · rw [Score_distance_eq_uint32Run, uint32Run_matchOffsets m tokens count hQ hN,
      specDistance_eq_deltaSum]
  · intro ij hij
    obtain ⟨_, b, c, d⟩ := (matchPairs_bounds m tokens count m.m_keywordsCount 0
      (List.replicate count false)).2 ij hij
    exact ⟨by omega, c, d⟩

/-- C15 at keywords `["park", "central"]`, prefix `"cent"` and name tokens
`["central", "park", "center"]`: the matches are `(0, 1)` and `(1, 0)`, the
prefix is matched at position 2, and the distance is `1 + 2 + 1 = 4`. -/
theorem Score_distance_is_sum_of_deltas_witness :
    (KeywordMatcher.mk [tokPark, tokCentral] 2 (some tokCent)).m_keywordsCount ≤ 32 ∧
    3 ≤ 32 ∧
    keywordMatches (KeywordMatcher.mk [tokPark, tokCentral] 2 (some tokCent))
      [tokCentral, tokPark, tokCent ++ [101, 114]] 3 = [(0, 1), (1, 0)] ∧
    prefixMatch (KeywordMatcher.mk [tokPark, tokCentral] 2 (some tokCent))
      [tokCentral, tokPark, tokCent ++ [101, 114]] 3 = some 2 ∧
    specDistance (KeywordMatcher.mk [tokPark, tokCentral] 2 (some tokCent))
      [tokCentral, tokPark, tokCent ++ [101, 114]] 3 = 4 ∧
    ((((KeywordMatcher.mk [tokPark, tokCentral] 2 (some tokCent)).Score
        [tokCentral, tokPark, tokCent ++ [101, 114]] 3).m_sumTokenMatchDistance : Nat) : Int) =
      specDistance (KeywordMatcher.mk [tokPark, tokCentral] 2 (some tokCent))
        [tokCentral, tokPark, tokCent ++ [101, 114]] 3 :=
  ⟨by decide, by decide, by decide, by decide, by decide,
    (Score_distance_is_sum_of_deltas (KeywordMatcher.mk [tokPark, tokCentral] 2 (some tokCent))
      [tokCentral, tokPark, tokCent ++ [101, 114]] 3 (by decide) (by decide)).1⟩

/-- C19: the unsigned 32-bit distance arithmetic never wraps observably.  With at
most 32 keywords in use and at most 32 name tokens, the distance computed by
`Score` is the run of the `uint32_t` statements (offset converted to
`uint32_t`, difference modulo `2 ^ 32`, `abs` of it read as a signed 32-bit
integer, sum modulo `2 ^ 32`) over the offsets `i - j` of its matches and
`Q - j` of the prefix match, these offsets lie strictly between `-32` and `33`
(they may be negative), and the run yields exactly the sum of `|d - d_prev|`
computed over the unbounded integers. -/
theorem Score_distance_arithmetic_exact (m : KeywordMatcher) (tokens : List StringT)
    (count : Nat) (hQ : m.m_keywordsCount ≤ 32) (hN : count ≤ 32) :
    (m.Score tokens count).m_sumTokenMatchDistance =
        uint32Run 0 0 (matchOffsets m tokens count) ∧
      (∀ d ∈ matchOffsets m tokens count, -32 < d ∧ d ≤ 32) ∧
      ((uint32Run 0 0 (matchOffsets m tokens count) : Nat) : Int) =
        deltaSum 0 (matchOffsets m tokens count) :=
  ⟨Score_distance_eq_uint32Run m tokens count,
    (matchOffsets_bounds m tokens count hQ hN).2,
    uint32Run_matchOffsets m tokens count hQ hN⟩

/-- C19 at keywords `["park", "central"]` and name tokens `["central", "park"]`:
the offsets are `-1` and `1`, the `uint32_t` values `0xFFFFFFFF` and `1`, and
the distance is `1 + 2 = 3`. -/
theorem Score_distance_arithmetic_exact_witness :
    (KeywordMatcher.mk [tokPark, tokCentral] 2 none).m_keywordsCount ≤ 32 ∧ 2 ≤ 32 ∧
    matchOffsets (KeywordMatcher.mk [tokPark, tokCentral] 2 none) [tokCentral, tokPark] 2 =
      [-1, 1] ∧
    toUInt32 (-1) = 4294967295 ∧
    deltaSum 0 [-1, 1] = 3 ∧
    ((KeywordMatcher.mk [tokPark, tokCentral] 2 none).Score [tokCentral, tokPark]
        2).m_sumTokenMatchDistance =
      uint32Run 0 0
        (matchOffsets (KeywordMatcher.mk [tokPark, tokCentral] 2 none) [tokCentral, tokPark] 2) :=
  ⟨by decide, by decide, by decide, by decide, by decide,
    (Score_distance_arithmetic_exact (KeywordMatcher.mk [tokPark, tokCentral] 2 none)
      [tokCentral, tokPark] 2 (by decide) (by decide)).1⟩

/-! ### The diagnostic rendering of the mask -/

end search
